import Mathlib

/-!
# gotesseract: OCR search over a directory of images

A shallow embedding of `gotesseract-main.go`:

* the string and path helpers the program calls (`strings.Contains`,
  `strings.Split`, `strings.Join`, `strings.ToLower`, `filepath.Base`,
  `filepath.Ext`),
* `resizeImageIfEnabled`, with the operating system and the image codecs as an
  oracle and the calls made recorded in a trace,
* the body of `worker`, both as a sequential function over the shared
  aggregates and the worker's OCR client, and as one process of an interleaving
  transition system,
* `isImageFile` and the enumeration, dispatch and persistence code of `main`.

Each worker keeps one `gosseract` client for all its jobs and drops the error of
`SetImage` (lines 65 and 74), so what `Text` returns for a job may depend on the
jobs the same worker handled before. A client is therefore modelled with its
state, the paths set on it so far, and the pool keeps the record of the calls
made; which jobs errored in a run is read off that record and the log.

Go strings are modelled as lists of runes (`List Char`); all strings the program
handles are taken to be valid UTF-8, for which the byte-level functions of the
`strings` package agree with their rune-level reading.
-/

namespace GoTesseract

/-- A Go `string`, as its sequence of runes. -/
abbrev GoString := List Char

deriving instance DecidableEq for Except

/-! ## The `strings` package -/

/-- Go `strings.HasPrefix(s, prefix)`. -/
def hasPrefix : GoString → GoString → Bool
  | _, [] => true
  | [], _ :: _ => false
  | c :: s, d :: p => c == d && hasPrefix s p

/-- Go `strings.Index(s, substr)`, counting from offset `i`: the position of the
first occurrence of `substr`, or `-1`. -/
def indexFrom (i : Nat) : GoString → GoString → Int
  | [], sub => if sub.isEmpty then (i : Int) else -1
  | c :: s, sub => if hasPrefix (c :: s) sub then (i : Int) else indexFrom (i + 1) s sub

/-- Go `strings.Index`. -/
def index (s sub : GoString) : Int := indexFrom 0 s sub

/-- Go `strings.Contains(s, substr)`, which is `Index(s, substr) >= 0`. -/
def contains (s sub : GoString) : Bool := decide (0 ≤ index s sub)

/-- Go `strings.Split(s, sep)` for a separator of one rune: the pieces of `s`
between the occurrences of `sep`; one more piece than there are separators. -/
def split (sep : Char) : GoString → List GoString
  | [] => [[]]
  | c :: s =>
    if c = sep then [] :: split sep s
    else
      match split sep s with
      | [] => [[c]]
      | l :: ls => (c :: l) :: ls

/-- Go `strings.Join(elems, sep)`: the library's three cases, no element, one
element, and the first element followed by `sep` and the next element in turn. -/
def join (elems : List GoString) (sep : GoString) : GoString :=
  match elems with
  | [] => []
  | [e] => e
  | e :: rest => rest.foldl (fun b s => b ++ sep ++ s) e

/-- Go `unicode.ToLower` on one rune: the ASCII letters are shifted by hand, any
rune beyond ASCII goes through the Unicode case table `tbl`. -/
def toLowerRune (tbl : Char → Char) (c : Char) : Char :=
  if c.toNat < 128 then
    (if 65 ≤ c.toNat ∧ c.toNat ≤ 90 then Char.ofNat (c.toNat + 32) else c)
  else tbl c

/-- Go `strings.ToLower(s)`: every rune mapped by `unicode.ToLower`. -/
def toLower (tbl : Char → Char) (s : GoString) : GoString := s.map (toLowerRune tbl)

/-! ## The `path/filepath` package (Unix separator) -/

/-- Go `filepath.Base(path)`: the last element of the path, trailing separators
removed first; `.` for the empty path and `/` for a path of separators only. -/
def base (path : GoString) : GoString :=
  if path.isEmpty then ['.']
  else
    let stripped := path.reverse.dropWhile (fun c => c == '/')
    let last := (stripped.takeWhile (fun c => c != '/')).reverse
    if last.isEmpty then ['/'] else last

/-- Backwards scan of `filepath.Ext`: `rev` is what is left of the path read from
its end, `acc` the runes already passed. -/
def extScan : List Char → GoString → GoString
  | [], _ => []
  | c :: rev, acc =>
    if c = '/' then []
    else if c = '.' then '.' :: acc
    else extScan rev (c :: acc)

/-- Go `filepath.Ext(path)`: the suffix beginning at the final dot of the last
element of the path, empty when there is no dot. -/
def ext (path : GoString) : GoString := extScan path.reverse []

/-! ## The match loop of `worker` -/

/-- The line loop of `worker` (lines 80-90): `body` runs, in order, on every line
that contains the search string. -/
def forEachMatch {σ : Type} (body : GoString → σ → σ) (searchString : GoString) :
    List GoString → σ → σ
  | [], st => st
  | line :: rest, st =>
    if contains line searchString then forEachMatch body searchString rest (body line st)
    else forEachMatch body searchString rest st

/-- The lines the loop of `worker` selects, collected in the order it visits
them. -/
def matchFilter (lines : List GoString) (searchString : GoString) : List GoString :=
  forEachMatch (fun line acc => acc ++ [line]) searchString lines []

/-! ## External collaborators -/

/-- A decoded image, as far as the program looks at it: its bounds and a tag
standing for the pixel data. -/
structure Image where
  width : Int
  height : Int
  pixels : Nat
deriving DecidableEq

/-- What is handed to `os.WriteFile`: the bytes of a buffer, or the bytes of a
string. -/
inductive FileData where
  | ofBuffer (bytes : List Nat)
  | ofString (s : GoString)
deriving DecidableEq

/-- The file types `os.DirEntry.Type` tells apart. -/
inductive FileType where
  | regular
  | dir
  | symlink
  | namedPipe
  | socket
  | device
  | charDevice
  | irregular
deriving DecidableEq

/-- An `os.DirEntry`: the name of the entry and its type. -/
structure DirEntry where
  name : GoString
  typ : FileType
deriving DecidableEq

/-- Go `DirEntry.IsDir`. -/
def DirEntry.isDir (e : DirEntry) : Bool := decide (e.typ = FileType.dir)

/-- Whether the entry is a regular file (`Type().IsRegular()`). -/
def DirEntry.isRegular (e : DirEntry) : Bool := decide (e.typ = FileType.regular)

/-- The operating system, the image codecs and the OCR engine, as an oracle
fixed for a run. Errors are carried as their message. The OCR clients answer
according to their own state. -/
structure Env where
  /-- The rune table behind `unicode.ToLower`, used beyond ASCII. -/
  unicodeLower : Char → Char
  /-- Calls `os.ReadDir`. -/
  readDir : GoString → Except GoString (List DirEntry)
  /-- Calls `os.Open`, giving the content of the file. -/
  openFile : GoString → Except GoString (List Nat)
  /-- Calls `image.Decode`, giving the image and the name of its format. -/
  decode : List Nat → Except GoString (Image × GoString)
  /-- Calls `resize.Resize(width, height, img, resize.Lanczos3)`. -/
  resizeLanczos3 : Nat → Nat → Image → Image
  /-- Calls `jpeg.Encode` into a buffer. -/
  encodeJpeg : Image → Except GoString (List Nat)
  /-- Calls `png.Encode` into a buffer. -/
  encodePng : Image → Except GoString (List Nat)
  /-- Calls `os.TempDir`. -/
  tempDir : GoString
  /-- Calls `filepath.Join` on two elements. -/
  pathJoin : GoString → GoString → GoString
  /-- Calls `os.WriteFile`: `none` when the file was written, else the error. -/
  writeFile : GoString → FileData → Option GoString
  /-- The OCR clients. `clientText id earlier path` is what `client.Text()` returns
  right after `client.SetImage(path)`, whose own error the program drops, on the
  client made by worker `id`, when `earlier` are the paths set on that client
  before, oldest first, each followed by its `Text`. A client is stateful: what it
  reads off may be the image of an earlier path. -/
  clientText : Nat → List GoString → GoString → Except GoString GoString
  /-- Calls `runtime.NumCPU`. -/
  numCPU : Nat

/-- A call `resizeImageIfEnabled` makes on the file system or a codec. -/
inductive FsCall where
  | openFile (path : GoString)
  | decode (path : GoString)
  | resize (width height : Nat)
  | encode (format : GoString)
  | writeFile (path : GoString) (data : FileData)
deriving DecidableEq

/-! ## `resizeImageIfEnabled` -/

/-- The function `resizeImageIfEnabled(imagePath, fast)`: the path to hand to the
OCR engine or the error, paired with the calls made on the way. -/
def resizeImageIfEnabled (env : Env) (imagePath : GoString) (fast : Bool) :
    Except GoString GoString × List FsCall :=
  if !fast then (Except.ok imagePath, [])
  else
    match env.openFile imagePath with
    | Except.error err => (Except.error err, [FsCall.openFile imagePath])
    | Except.ok file =>
      match env.decode file with
      | Except.error err =>
        (Except.error err, [FsCall.openFile imagePath, FsCall.decode imagePath])
      | Except.ok (img, format) =>
        let opened := [FsCall.openFile imagePath, FsCall.decode imagePath]
        if img.width > 1200 then
          let resized := env.resizeLanczos3 1200 0 img
          let calls := opened ++ [FsCall.resize 1200 0]
          let encoded : Option (Except GoString (List Nat)) :=
            if format = "jpeg".toList then some (env.encodeJpeg resized)
            else if format = "png".toList then some (env.encodePng resized)
            else none
          match encoded with
          | none => (Except.error ("unsupported image format: ".toList ++ format), calls)
          | some (Except.error err) => (Except.error err, calls ++ [FsCall.encode format])
          | some (Except.ok buf) =>
            let tempPath := env.pathJoin env.tempDir (base imagePath)
            let data := FileData.ofBuffer buf
            let written := calls ++ [FsCall.encode format, FsCall.writeFile tempPath data]
            match env.writeFile tempPath data with
            | some err => (Except.error err, written)
            | none => (Except.ok tempPath, written)
        else (Except.ok imagePath, opened)

/-! ## `worker`, run on its own -/

/-- A line written by `log.Printf` or `log.Fatalf`, by call site. -/
inductive LogEntry where
  | failedToProcess (id : Nat) (imagePath err : GoString)
  | errorProcessing (id : Nat) (processedPath err : GoString)
  | failedToWrite (err : GoString)
deriving DecidableEq

/-- The aggregates the workers share: the result slice, the processed counter,
and the two output streams (standard output by line, the log by entry). The
counter is a Go `int` that only ever counts jobs, far from its range's end. -/
structure Shared where
  results : List GoString
  counter : Nat
  stdout : List GoString
  log : List LogEntry
deriving DecidableEq

/-- The state of the `gosseract` client of one worker, as the paths passed to its
`SetImage` since `NewClient`, oldest first. -/
abbrev Client := List GoString

/-- The record of one match: `fmt.Sprintf("Found in: %s | Line: %s",
filepath.Base(imagePath), line)`. -/
def formatResult (imagePath line : GoString) : GoString :=
  "Found in: ".toList ++ base imagePath ++ " | Line: ".toList ++ line

/-- Body of the match loop (lines 82-88): print the record, then append it. -/
def emit (imagePath line : GoString) (st : Shared) : Shared :=
  let result := formatResult imagePath line
  let printed := { st with stdout := st.stdout ++ [result] }
  { printed with results := printed.results ++ [result] }

/-- One iteration of the loop of `worker` (lines 69-93), on the job
`imagePath`, with the worker's client in the state `client`: the aggregates and
the client afterwards. -/
def processJob (env : Env) (searchString : GoString) (fast : Bool) (id : Nat)
    (imagePath : GoString) (st : Shared) (client : Client) : Shared × Client :=
  match (resizeImageIfEnabled env imagePath fast).1 with
  | Except.error err =>
    ({ st with log := st.log ++ [LogEntry.failedToProcess id imagePath err] }, client)
  | Except.ok processedPath =>
    match env.clientText id client processedPath with
    | Except.error err =>
      ({ st with log := st.log ++ [LogEntry.errorProcessing id processedPath err] },
        client ++ [processedPath])
    | Except.ok text =>
      let scanned := forEachMatch (emit imagePath) searchString (split '\n' text) st
      ({ scanned with counter := scanned.counter + 1 }, client ++ [processedPath])

/-- The loop `for imagePath := range jobs` of `worker`, on the jobs this worker
receives, in the order it receives them, with the one client it keeps. -/
def worker (env : Env) (searchString : GoString) (fast : Bool) (id : Nat)
    (jobs : List GoString) (st : Shared) (client : Client) : Shared × Client :=
  jobs.foldl (fun acc imagePath => processJob env searchString fast id imagePath acc.1 acc.2)
    (st, client)

/-! ## `isImageFile` and the enumeration of `main` -/

/-- The function `isImageFile(filename)`. -/
def isImageFile (env : Env) (filename : GoString) : Bool :=
  let e := toLower env.unicodeLower (ext filename)
  decide (e = ".png".toList) || decide (e = ".jpg".toList) || decide (e = ".jpeg".toList)

/-- The enumeration loop of `main` (lines 133-138) over the listing `files`. -/
def imageFiles (env : Env) (folderPath : GoString) (files : List DirEntry) : List GoString :=
  files.foldl
    (fun acc file =>
      if !file.isDir && isImageFile env file.name then acc ++ [env.pathJoin folderPath file.name]
      else acc)
    []

/-- Whether the runes of `s` lie, one by one, in the classes `classes`. -/
def inClasses : GoString → List (List Char) → Bool
  | [], [] => true
  | c :: s, cls :: rest => decide (c ∈ cls) && inClasses s rest
  | _, _ => false

/-- The extension of `filename` is `.png`, `.jpg` or `.jpeg`, each letter in
either case: the reading of "extension, compared case-insensitively, one of png,
jpg, jpeg". -/
def hasImageExtension (filename : GoString) : Bool :=
  inClasses (ext filename) [['.'], ['p', 'P'], ['n', 'N'], ['g', 'G']] ||
  inClasses (ext filename) [['.'], ['j', 'J'], ['p', 'P'], ['g', 'G']] ||
  inClasses (ext filename) [['.'], ['j', 'J'], ['p', 'P'], ['e', 'E'], ['g', 'G']]

/-- The case table sends no rune beyond ASCII to a rune of `.png`, `.jpg` or
`.jpeg` (true of the Unicode table, whose only such images in ASCII are `k` and
`i`). -/
def TableKeepsLetters (tbl : Char → Char) : Prop :=
  ∀ c : Char, 128 ≤ c.toNat → tbl c ∉ ['.', 'p', 'n', 'g', 'j', 'e']

/-! ## The pool of `main`: dispatcher, workers and progress reporter -/

/-- What a run is started with: the oracle, the flags, and the image paths the
enumeration produced. -/
structure Config where
  env : Env
  searchString : GoString
  folderPath : GoString
  outputFile : GoString
  fast : Bool
  imageFiles : List GoString
  /-- The text files on disk when the run starts, by path. -/
  disk : List (GoString × GoString)

/-- The value of `totalImages`. -/
def Config.totalImages (cfg : Config) : Nat := cfg.imageFiles.length

/-- Where a worker goroutine stands. -/
inductive WorkerPc where
  /-- At `range jobs` (line 68), about to receive. -/
  | recv
  /-- Before `resizeImageIfEnabled` (line 69). -/
  | resizing (imagePath : GoString)
  /-- Before `client.SetImage` and `client.Text` (lines 74-75), `processedPath`
  being what `resizeImageIfEnabled` returned. -/
  | extracting (imagePath processedPath : GoString)
  /-- At the head of the line loop (line 80) with `lines` still to visit; with no
  line left, before the counter increment (line 92). -/
  | scanning (imagePath : GoString) (lines : List GoString)
  /-- After printing `result` (line 85), before appending it (line 87). -/
  | appending (imagePath result : GoString) (lines : List GoString)
  /-- Returned: the channel was closed and empty (`wg.Done` has run). -/
  | stopped
deriving DecidableEq

/-- Where the dispatcher (the goroutine of `main`) stands. -/
inductive MainPc where
  /-- In the send loop (lines 171-173) with `rest` still to send; with nothing
  left, before `close(jobs)` (line 174). -/
  | sending (rest : List GoString)
  /-- At `wg.Wait()` (line 176). -/
  | waiting
  /-- The process has exited with this status. -/
  | exited (status : Nat)
deriving DecidableEq

/-- Where the progress reporter stands. -/
inductive ReporterPc where
  /-- In `time.Sleep` (line 161), before the locked print. -/
  | sleeping
  /-- After the print, before the test `counter >= totalImages` (line 165). -/
  | checking
  /-- Returned from its loop. -/
  | returned
deriving DecidableEq

/-- One `client.SetImage(processedPath)` followed by `client.Text()`, as made by
worker `id` for the job `imagePath`, with what `Text` returned. -/
structure OcrCall where
  id : Nat
  imagePath : GoString
  processedPath : GoString
  result : Except GoString GoString
deriving DecidableEq

/-- The state of the client of worker `id` after the calls `calls`. -/
def clientHistory (id : Nat) (calls : List OcrCall) : Client :=
  (calls.filter (fun c => decide (c.id = id))).map (fun c => c.processedPath)

/-- The state of the whole process. -/
structure Sys where
  main : MainPc
  /-- The buffer of the channel `jobs`. -/
  chan : List GoString
  /-- Whether `jobs` has been closed. -/
  closed : Bool
  workers : List WorkerPc
  reporter : ReporterPc
  shared : Shared
  /-- The text files on disk, by path. -/
  files : List (GoString × GoString)
  /-- The calls made on the OCR clients so far, in the order they were made. -/
  ocrCalls : List OcrCall
deriving DecidableEq

/-- Content of the file at `path`, if there is one. -/
def readFile (files : List (GoString × GoString)) (path : GoString) : Option GoString :=
  (files.find? (fun f => decide (f.1 = path))).map (fun f => f.2)

/-- Effect of a successful `os.WriteFile(path, content, 0644)`: the file is
created or truncated, and holds `content`. -/
def writeFile (files : List (GoString × GoString)) (path content : GoString) :
    List (GoString × GoString) :=
  (path, content) :: files.filter (fun f => !decide (f.1 = path))

/-- The goroutines of the process. -/
inductive Actor where
  | main
  | worker (id : Nat)
  | reporter
deriving DecidableEq

/-- The line `Found %d image(s) in '%s'`. -/
def foundLine (total : Nat) (folderPath : GoString) : GoString :=
  "Found ".toList ++ (toString total).toList ++ " image(s) in '".toList ++ folderPath ++ "'".toList

/-- The line `Using %d workers`. -/
def usingLine (numWorkers : Nat) : GoString :=
  "Using ".toList ++ (toString numWorkers).toList ++ " workers".toList

/-- The line `Progress: %d/%d images processed`. -/
def progressLine (counter total : Nat) : GoString :=
  "Progress: ".toList ++ (toString counter).toList ++ "/".toList ++ (toString total).toList ++
    " images processed".toList

/-- The line `Results saved to: %s`. -/
def savedLine (outputFile : GoString) : GoString := "Results saved to: ".toList ++ outputFile

/-- The line `No matches found.`. -/
def noMatchesLine : GoString := "No matches found.".toList

/-- The process once `main` has made the channel, printed its two header lines and
started `numCPU` workers and the reporter (lines 140-169). -/
def initSys (cfg : Config) : Sys :=
  { main := MainPc.sending cfg.imageFiles
    chan := []
    closed := false
    workers := List.replicate cfg.env.numCPU WorkerPc.recv
    reporter := ReporterPc.sleeping
    shared :=
      { results := []
        counter := 0
        stdout := [foundLine cfg.totalImages cfg.folderPath, usingLine cfg.env.numCPU]
        log := [] }
    files := cfg.disk
    ocrCalls := [] }

/-- The end of `main` (lines 179-187), run on the aggregates once `wg.Wait` has
returned. -/
def persist (cfg : Config) (s : Sys) : Sys :=
  if s.shared.results.length > 0 then
    let content := join s.shared.results "\n".toList
    match cfg.env.writeFile cfg.outputFile (FileData.ofString content) with
    | some err =>
      { s with
        main := MainPc.exited 1
        shared := { s.shared with log := s.shared.log ++ [LogEntry.failedToWrite err] } }
    | none =>
      { s with
        main := MainPc.exited 0
        files := writeFile s.files cfg.outputFile content
        shared := { s.shared with stdout := s.shared.stdout ++ [savedLine cfg.outputFile] } }
  else
    { s with
      main := MainPc.exited 0
      shared := { s.shared with stdout := s.shared.stdout ++ [noMatchesLine] } }

/-- One step of the dispatcher: a send on the channel (which has room for
`totalImages` jobs), the close, or the end of the wait followed by `persist`. A
step that cannot be taken leaves the state as it is. -/
def mainStep (cfg : Config) (s : Sys) : Sys :=
  match s.main with
  | MainPc.sending (imagePath :: rest) =>
    if s.chan.length < cfg.totalImages then
      { s with main := MainPc.sending rest, chan := s.chan ++ [imagePath] }
    else s
  | MainPc.sending [] => { s with main := MainPc.waiting, closed := true }
  | MainPc.waiting =>
    if s.workers.all (fun w => decide (w = WorkerPc.stopped)) then persist cfg s else s
  | MainPc.exited _ => s

/-- One step of worker `id`: each step touches at most one of the channel, the
standard output, the result slice and the counter, under that one's lock, or
makes the calls on the worker's own client. -/
def workerStep (cfg : Config) (id : Nat) (s : Sys) : Sys :=
  match s.workers.get? id with
  | none => s
  | some WorkerPc.recv =>
    match s.chan with
    | imagePath :: rest =>
      { s with chan := rest, workers := s.workers.set id (WorkerPc.resizing imagePath) }
    | [] => if s.closed then { s with workers := s.workers.set id WorkerPc.stopped } else s
  | some (WorkerPc.resizing imagePath) =>
    match (resizeImageIfEnabled cfg.env imagePath cfg.fast).1 with
    | Except.error err =>
      { s with
        workers := s.workers.set id WorkerPc.recv
        shared :=
          { s.shared with log := s.shared.log ++ [LogEntry.failedToProcess id imagePath err] } }
    | Except.ok processedPath =>
      { s with workers := s.workers.set id (WorkerPc.extracting imagePath processedPath) }
  | some (WorkerPc.extracting imagePath processedPath) =>
    match cfg.env.clientText id (clientHistory id s.ocrCalls) processedPath with
    | Except.error err =>
      { s with
        workers := s.workers.set id WorkerPc.recv
        ocrCalls := s.ocrCalls ++
          [{ id := id, imagePath := imagePath, processedPath := processedPath,
             result := Except.error err }]
        shared :=
          { s.shared with
            log := s.shared.log ++ [LogEntry.errorProcessing id processedPath err] } }
    | Except.ok text =>
      { s with
        workers := s.workers.set id (WorkerPc.scanning imagePath (split '\n' text))
        ocrCalls := s.ocrCalls ++
          [{ id := id, imagePath := imagePath, processedPath := processedPath,
             result := Except.ok text }] }
  | some (WorkerPc.scanning imagePath (line :: rest)) =>
    if contains line cfg.searchString then
      let result := formatResult imagePath line
      { s with
        workers := s.workers.set id (WorkerPc.appending imagePath result rest)
        shared := { s.shared with stdout := s.shared.stdout ++ [result] } }
    else { s with workers := s.workers.set id (WorkerPc.scanning imagePath rest) }
  | some (WorkerPc.appending imagePath result rest) =>
    { s with
      workers := s.workers.set id (WorkerPc.scanning imagePath rest)
      shared := { s.shared with results := s.shared.results ++ [result] } }
  | some (WorkerPc.scanning _ []) =>
    { s with
      workers := s.workers.set id WorkerPc.recv
      shared := { s.shared with counter := s.shared.counter + 1 } }
  | some WorkerPc.stopped => s

/-- One step of the progress reporter: the locked print, or the test that ends
its loop. -/
def reporterStep (cfg : Config) (s : Sys) : Sys :=
  match s.reporter with
  | ReporterPc.sleeping =>
    { s with
      reporter := ReporterPc.checking
      shared :=
        { s.shared with
          stdout := s.shared.stdout ++ [progressLine s.shared.counter cfg.totalImages] } }
  | ReporterPc.checking =>
    if s.shared.counter ≥ cfg.totalImages then { s with reporter := ReporterPc.returned }
    else { s with reporter := ReporterPc.sleeping }
  | ReporterPc.returned => s

/-- One step of the process by the goroutine `a`. Nothing runs once `main` has
exited. -/
def step (cfg : Config) (s : Sys) (a : Actor) : Sys :=
  match s.main with
  | MainPc.exited _ => s
  | _ =>
    match a with
    | Actor.main => mainStep cfg s
    | Actor.worker id => workerStep cfg id s
    | Actor.reporter => reporterStep cfg s

/-- The state after the goroutines have been scheduled in the order `sched`. -/
def run (cfg : Config) (sched : List Actor) (s : Sys) : Sys := sched.foldl (step cfg) s

/-- The states a run can be in: those some schedule leads to from `initSys`. -/
def Reachable (cfg : Config) (s : Sys) : Prop :=
  ∃ sched : List Actor, run cfg sched (initSys cfg) = s

/-- All workers have returned, which is when `wg.Wait` returns. -/
def allStopped (s : Sys) : Bool := s.workers.all (fun w => decide (w = WorkerPc.stopped))

/-- The start of `main` after flag parsing (lines 117-140): the usage text, a
fatal error of `os.ReadDir`, or the configuration of the pool. -/
inductive Start where
  | usage
  | fatal (err : GoString)
  | pool (cfg : Config)

/-- The start of `main`, where `help` is the value of `*verbose` after the scan of
the arguments for `--help`. -/
def start (env : Env) (searchString folderPath outputFile : GoString) (fast help : Bool)
    (disk : List (GoString × GoString)) : Start :=
  if help || searchString.isEmpty then Start.usage
  else
    match env.readDir folderPath with
    | Except.error err => Start.fatal err
    | Except.ok files =>
      Start.pool
        { env := env
          searchString := searchString
          folderPath := folderPath
          outputFile := outputFile
          fast := fast
          imageFiles := imageFiles env folderPath files
          disk := disk }

/-! ## Accounting for the pool -/

/-- The records the line loop appends for the job `imagePath` while it visits
`lines`. -/
def matchRecords (searchString imagePath : GoString) (lines : List GoString) : List GoString :=
  (lines.filter (fun l => contains l searchString)).map (formatResult imagePath)

/-- Whether `Text` returned a text on the call, not an error. -/
def OcrCall.succeeded (c : OcrCall) : Bool :=
  match c.result with
  | Except.ok _ => true
  | Except.error _ => false

/-- The match records of the job of a call: those of the lines of the text that
`Text` returned for it, none when `Text` returned an error. -/
def OcrCall.records (searchString : GoString) (c : OcrCall) : List GoString :=
  match c.result with
  | Except.ok text => matchRecords searchString c.imagePath (split '\n' text)
  | Except.error _ => []

/-- The jobs on which `resizeImageIfEnabled` returned an error, as the log has
them (line 71). -/
def resizeFailures : List LogEntry → List GoString
  | [] => []
  | LogEntry.failedToProcess _ imagePath _ :: log => imagePath :: resizeFailures log
  | LogEntry.errorProcessing _ _ _ :: log => resizeFailures log
  | LogEntry.failedToWrite _ :: log => resizeFailures log

/-- The number of jobs on which `client.Text` returned an error, as the log has
them (line 77). -/
def textFailures : List LogEntry → ℕ
  | [] => 0
  | LogEntry.failedToProcess _ _ _ :: log => textFailures log
  | LogEntry.errorProcessing _ _ _ :: log => textFailures log + 1
  | LogEntry.failedToWrite _ :: log => textFailures log

/-- The number of jobs abandoned so far: the lines logged by the two `continue`
branches of `worker` (lines 71 and 77). -/
def abandoned (s : Sys) : ℕ := (resizeFailures s.shared.log).length + textFailures s.shared.log

/-- The jobs that are through preprocessing: those it failed on, then those the
OCR client was called for. -/
def handledJobs (s : Sys) : List GoString :=
  resizeFailures s.shared.log ++ s.ocrCalls.map (fun c => c.imagePath)

/-- The calls of the jobs on which neither preprocessing nor extraction
errored. -/
def okCalls (s : Sys) : List OcrCall := s.ocrCalls.filter OcrCall.succeeded

/-- The jobs `main` has not sent yet. -/
def unsent : MainPc → List GoString
  | MainPc.sending rest => rest
  | _ => []

/-- The jobs no worker has received yet: those in the channel, then those not
sent. -/
def pendingJobs (s : Sys) : List GoString := s.chan ++ unsent s.main

/-- Four quantities kept in balance: jobs, records, counted jobs and logged
extraction errors. -/
abbrev Acct := Multiset GoString × Multiset GoString × ℕ × ℕ

/-- What a worker holds: the job it has received and not yet passed to the OCR
client, or the records it has yet to append and the count it has yet to add. -/
def held (searchString : GoString) : WorkerPc → Acct
  | WorkerPc.recv => 0
  | WorkerPc.resizing imagePath => ({imagePath}, 0, 0, 0)
  | WorkerPc.extracting imagePath _ => ({imagePath}, 0, 0, 0)
  | WorkerPc.scanning imagePath lines =>
    (0, (matchRecords searchString imagePath lines : Multiset GoString), 1, 0)
  | WorkerPc.appending imagePath result lines =>
    (0, (result :: matchRecords searchString imagePath lines : Multiset GoString), 1, 0)
  | WorkerPc.stopped => 0

/-- What has been settled: the jobs handled or still pending, the records
appended, the counter, the extraction errors logged. -/
def settled (s : Sys) : Acct :=
  ((handledJobs s : Multiset GoString) + (pendingJobs s : Multiset GoString),
    (s.shared.results : Multiset GoString), s.shared.counter, textFailures s.shared.log)

/-- What is due: the jobs of the run, the records of the calls made, the number
of calls that returned a text, the number that returned an error. -/
def due (cfg : Config) (s : Sys) : Acct :=
  ((cfg.imageFiles : Multiset GoString),
    ((s.ocrCalls.flatMap (OcrCall.records cfg.searchString) : List GoString) :
      Multiset GoString),
    (s.ocrCalls.filter OcrCall.succeeded).length,
    (s.ocrCalls.filter (fun c => !c.succeeded)).length)

/-- The balance of a run: what is settled and what the workers hold make up what
is due. -/
def Balanced (cfg : Config) (s : Sys) : Prop :=
  settled s + (s.workers.map (held cfg.searchString)).sum = due cfg s

/-- Whether a worker has a job in its hands. -/
def WorkerPc.busy : WorkerPc → Bool
  | WorkerPc.recv => false
  | WorkerPc.stopped => false
  | _ => true

/-- The number of workers with a job in their hands. -/
def inFlight (s : Sys) : ℕ := (s.workers.filter WorkerPc.busy).length

/-- Whether a worker is in the line loop of a job, its text extracted and its
count not yet added. -/
def WorkerPc.matching : WorkerPc → Bool
  | WorkerPc.scanning _ _ => true
  | WorkerPc.appending _ _ _ => true
  | _ => false

/-- The number of workers in the line loop of a job. -/
def inLoop (s : Sys) : ℕ := (s.workers.filter WorkerPc.matching).length

/-- The number of jobs that have completed without error: the jobs of the run
that are neither pending, nor in a worker's hands, nor abandoned. -/
def completedOk (cfg : Config) (s : Sys) : ℕ :=
  cfg.totalImages - (pendingJobs s).length - inFlight s - abandoned s

/-- The record of the calls is the record of this program on this oracle: each
call was made on the path `resizeImageIfEnabled` returned for its job, and
returned what the client of its worker returns after the calls before it. -/
def Faithful (cfg : Config) (calls : List OcrCall) : Prop :=
  ∀ (before : List OcrCall) (c : OcrCall) (after : List OcrCall),
    calls = before ++ c :: after →
    (resizeImageIfEnabled cfg.env c.imagePath cfg.fast).1 = Except.ok c.processedPath ∧
    c.result = cfg.env.clientText c.id (clientHistory c.id before) c.processedPath

/-- The record of the calls is faithful, and a worker about to call the client
holds the path `resizeImageIfEnabled` returned for its job. -/
def Traced (cfg : Config) (s : Sys) : Prop :=
  Faithful cfg s.ocrCalls ∧
  ∀ imagePath processedPath, WorkerPc.extracting imagePath processedPath ∈ s.workers →
    (resizeImageIfEnabled cfg.env imagePath cfg.fast).1 = Except.ok processedPath

/-- What holds of the control state throughout a run. -/
structure WellFormed (cfg : Config) (s : Sys) : Prop where
  /-- There are `numCPU` workers. -/
  workers_length : s.workers.length = cfg.env.numCPU
  /-- Once the channel is closed nothing is left to send. -/
  closed_unsent : s.closed = true → unsent s.main = []
  /-- A worker returns only from a closed and empty channel. -/
  stopped_drained : WorkerPc.stopped ∈ s.workers → s.closed = true ∧ s.chan = []
  /-- The channel never holds more than its capacity allows. -/
  capacity : s.chan.length + (unsent s.main).length ≤ cfg.totalImages
  /-- After the send loop the channel is closed. -/
  waiting_closed : (∀ rest, s.main ≠ MainPc.sending rest) → s.closed = true

/-! ## A bound on the steps left -/

/-- Steps left for a worker before it is back at the receive, the line loop not
counted, plus the one receive that makes it return. -/
def workerCost : WorkerPc → ℕ
  | WorkerPc.recv => 1
  | WorkerPc.resizing _ => 3
  | WorkerPc.extracting _ _ => 2
  | WorkerPc.scanning _ _ => 1
  | WorkerPc.appending _ _ _ => 1
  | WorkerPc.stopped => 0

/-- Steps left in the line loop of a worker, the increment included. -/
def scanCost : WorkerPc → ℕ
  | WorkerPc.scanning _ lines => 2 * lines.length + 1
  | WorkerPc.appending _ _ lines => 2 * lines.length + 2
  | _ => 0

/-- Steps left for `main`, with the steps of the jobs it has yet to send. -/
def mainCost : MainPc → ℕ
  | MainPc.sending rest => 4 * rest.length + 2
  | MainPc.waiting => 1
  | MainPc.exited _ => 0

/-- A bound on the steps `main` and the workers can still take outside the line
loops. -/
def stepsLeft (s : Sys) : ℕ :=
  mainCost s.main + 3 * s.chan.length + (s.workers.map workerCost).sum

/-- The steps left in the line loops under way. -/
def scanLeft (s : Sys) : ℕ := (s.workers.map scanCost).sum

/-- The state `s'` is nearer the end than `s`: fewer steps left outside the line
loops, or as many and fewer left inside them. -/
def Nearer (s' s : Sys) : Prop :=
  stepsLeft s' < stepsLeft s ∨ (stepsLeft s' = stepsLeft s ∧ scanLeft s' < scanLeft s)

/-! ## A small concrete world -/

/-- The image a `gosseract` client holds after `SetImage` on the paths `paths` in
turn: `SetImage` returns early, keeping the image it has, when the file cannot
be found. In the example a path that holds `gone` cannot be found. -/
def demoImage (paths : List GoString) : Option GoString :=
  (paths.filter (fun p => !contains p "gone".toList)).getLast?

/-- An oracle for examples: a file whose path holds `gone` is a dangling link, it
cannot be opened; a file whose path holds `big` decodes to a png 2000 pixels
wide, every other file to a jpeg 1200 pixels wide. A client reads the same two
lines off every image, and fails when it holds no image. -/
def demoEnv : Env :=
  { unicodeLower := fun c =>
      if c = Char.ofNat 0x212A then 'k' else if c = Char.ofNat 0x130 then 'i' else c
    readDir := fun _ =>
      Except.ok
        [ { name := "a.png".toList, typ := FileType.regular },
          { name := "sub.png".toList, typ := FileType.dir },
          { name := "link.JPG".toList, typ := FileType.symlink },
          { name := "notes.txt".toList, typ := FileType.regular } ]
    openFile := fun p =>
      if contains p "gone".toList then Except.error "no such file".toList
      else if contains p "big".toList then Except.ok [2000]
      else Except.ok [1200]
    decode := fun bytes =>
      match bytes with
      | [n] =>
        if n > 1200 then Except.ok ({ width := n, height := 1000, pixels := 7 }, "png".toList)
        else Except.ok ({ width := n, height := 600, pixels := 7 }, "jpeg".toList)
      | _ => Except.error "image: unknown format".toList
    resizeLanczos3 := fun w _ img =>
      { width := w, height := img.height * w / img.width, pixels := img.pixels }
    encodeJpeg := fun img => Except.ok [img.pixels, 1]
    encodePng := fun img => Except.ok [img.pixels, 2]
    tempDir := "/tmp".toList
    pathJoin := fun d f => d ++ "/".toList ++ f
    writeFile := fun _ _ => none
    clientText := fun _ earlier path =>
      match demoImage (earlier ++ [path]) with
      | none => Except.error "PixImage is not set".toList
      | some _ => Except.ok "hello world\ngoodbye".toList
    numCPU := 2 }

/-- A run of `demoEnv` over two images, the second a dangling link. -/
def demoCfg : Config :=
  { env := demoEnv
    searchString := "hello".toList
    folderPath := "d".toList
    outputFile := "results.txt".toList
    fast := false
    imageFiles := ["d/a.png".toList, "d/gone.png".toList]
    disk := [("results.txt".toList, "stale".toList)] }

/-- A schedule of `demoCfg` that runs to the end: `main` sends both jobs and
closes the channel, worker 0 takes the first job and worker 1 the second; the
client of worker 1 holds no image, so the job fails and the worker returns;
worker 0 records its match and returns, the reporter ticks once, and `main`
persists the results. -/
def demoSched : List Actor :=
  [ Actor.main, Actor.main, Actor.main,
    Actor.worker 0, Actor.worker 1,
    Actor.worker 1, Actor.worker 1, Actor.worker 1,
    Actor.worker 0, Actor.worker 0, Actor.worker 0, Actor.worker 0,
    Actor.worker 0, Actor.worker 0, Actor.worker 0,
    Actor.reporter, Actor.reporter,
    Actor.main ]

/-- A schedule of `demoCfg` in which worker 0 takes both jobs: on the second its
client still holds the image of the first, `Text` returns that text, and the job
is counted and matched though its file cannot be found. -/
def demoSchedOne : List Actor :=
  [ Actor.main, Actor.main, Actor.main ] ++
    List.replicate 15 (Actor.worker 0) ++ [ Actor.worker 1, Actor.main ]

/-- The aggregates of a worker that has done nothing yet. -/
def emptyShared : Shared := { results := [], counter := 0, stdout := [], log := [] }

/-! ## Lemmas on the string helpers -/

theorem hasPrefix_iff (s p : GoString) : hasPrefix s p = true ↔ p <+: s := by
  induction s generalizing p with
  | nil =>
    cases p with
    | nil => simp [hasPrefix]
    | cons d p => simp [hasPrefix]
  | cons c s ih =>
    cases p with
    | nil => simp [hasPrefix]
    | cons d p =>
      simp only [hasPrefix, Bool.and_eq_true, beq_iff_eq, ih, List.cons_prefix_cons]
      constructor
      · rintro ⟨h1, h2⟩
        exact ⟨h1.symm, h2⟩
      · rintro ⟨h1, h2⟩
        exact ⟨h1.symm, h2⟩

theorem indexFrom_nonneg_iff (i : Nat) (s sub : GoString) :
    0 ≤ indexFrom i s sub ↔ sub <:+: s := by
  induction s generalizing i with
  | nil =>
    cases sub with
    | nil => simp [indexFrom]
    | cons d p => simp [indexFrom]
  | cons c s ih =>
    unfold indexFrom
    by_cases h : hasPrefix (c :: s) sub = true
    · simp only [h, if_true]
      have hp := (hasPrefix_iff _ _).1 h
      exact ⟨fun _ => hp.isInfix, fun _ => Int.ofNat_nonneg i⟩
    · simp only [h, Bool.false_eq_true, if_false, ih]
      have hp : ¬ sub <+: c :: s := fun hp => h ((hasPrefix_iff _ _).2 hp)
      rw [List.infix_cons_iff]
      constructor
      · exact fun hs => Or.inr hs
      · rintro (hs | hs)
        · exact absurd hs hp
        · exact hs

theorem contains_iff (s sub : GoString) : contains s sub = true ↔ sub <:+: s := by
  simp [contains, index, indexFrom_nonneg_iff]

theorem forEachMatch_eq_foldl {σ : Type} (body : GoString → σ → σ) (searchString : GoString)
    (lines : List GoString) (st : σ) :
    forEachMatch body searchString lines st =
      (lines.filter (fun l => contains l searchString)).foldl (fun acc l => body l acc) st := by
  induction lines generalizing st with
  | nil => rfl
  | cons line rest ih =>
    by_cases h : contains line searchString = true
    · simp [forEachMatch, h, ih]
    · simp [forEachMatch, h, ih]

theorem foldl_snoc_eq (xs : List GoString) (acc : List GoString) :
    xs.foldl (fun acc l => acc ++ [l]) acc = acc ++ xs := by
  induction xs generalizing acc with
  | nil => simp
  | cons x xs ih => simp [ih]

/-! ## The balance of the pool -/

theorem sum_map_set {α M : Type} [AddCommMonoid M] (f : α → M) (l : List α) (i : Nat) (x y : α)
    (h : l.get? i = some x) : ((l.set i y).map f).sum + f x = (l.map f).sum + f y := by
  induction l generalizing i with
  | nil => simp at h
  | cons a l ih =>
    cases i with
    | zero =>
      simp only [List.get?_cons_zero, Option.some.injEq] at h
      subst h
      simp only [List.set_cons_zero, List.map_cons, List.sum_cons]
      abel
    | succ i =>
      simp only [List.get?_cons_succ] at h
      simp only [List.set_cons_succ, List.map_cons, List.sum_cons, add_assoc, ih i h]

theorem balanced_set (cfg : Config) (s s' : Sys) (id : Nat) (old new : WorkerPc)
    (h : s.workers.get? id = some old) (hb : Balanced cfg s)
    (hw : s'.workers = s.workers.set id new)
    (hstep : settled s' + held cfg.searchString new + due cfg s =
      due cfg s' + held cfg.searchString old + settled s) :
    Balanced cfg s' := by
  have hs := sum_map_set (held cfg.searchString) s.workers id old new h
  unfold Balanced at hb ⊢
  apply add_right_cancel (b := held cfg.searchString old + settled s)
  rw [hw]
  calc settled s' + ((s.workers.set id new).map (held cfg.searchString)).sum +
        (held cfg.searchString old + settled s)
      = (((s.workers.set id new).map (held cfg.searchString)).sum + held cfg.searchString old) +
          (settled s' + settled s) := by abel
    _ = (settled s + (s.workers.map (held cfg.searchString)).sum) +
          (settled s' + held cfg.searchString new) := by rw [hs]; abel
    _ = settled s' + held cfg.searchString new + due cfg s := by rw [hb]; abel
    _ = due cfg s' + (held cfg.searchString old + settled s) := by rw [hstep]; abel

theorem resizeFailures_append (l1 l2 : List LogEntry) :
    resizeFailures (l1 ++ l2) = resizeFailures l1 ++ resizeFailures l2 := by
  induction l1 with
  | nil => rfl
  | cons e l1 ih => cases e <;> simp [resizeFailures, ih]

theorem textFailures_append (l1 l2 : List LogEntry) :
    textFailures (l1 ++ l2) = textFailures l1 + textFailures l2 := by
  induction l1 with
  | nil => simp [textFailures]
  | cons e l1 ih =>
    cases e
    · simp [textFailures, ih]
    · simp [textFailures, ih]
      omega
    · simp [textFailures, ih]

theorem balanced_workerStep (cfg : Config) (id : Nat) (s : Sys) (hb : Balanced cfg s) :
    Balanced cfg (workerStep cfg id s) := by
  unfold workerStep
  split
  · exact hb
  · rename_i h
    split
    · rename_i imagePath rest hch
      refine balanced_set cfg s _ id _ _ h hb rfl ?_
      simp only [settled, due, held, handledJobs, pendingJobs, matchRecords, OcrCall.records,
        OcrCall.succeeded, resizeFailures_append, textFailures_append, resizeFailures,
        textFailures, Prod.mk_add_mk, Prod.mk.injEq, add_zero, zero_add,
        List.cons_append, List.map_append, List.map_cons, List.map_nil, List.flatMap_append,
        List.flatMap_cons, List.flatMap_nil, List.filter_append, List.filter_cons,
        List.filter_nil, List.length_append, List.length_cons, List.length_nil,
        List.append_nil, List.nil_append, Bool.not_true, Bool.not_false, Bool.false_eq_true,
        if_true, if_false, List.append_assoc, hch]
      refine ⟨?_, ?_, ?_, ?_⟩
      · try simp only [← Multiset.coe_add, ← Multiset.cons_coe, ← Multiset.singleton_add,
            Multiset.coe_nil, add_zero]
        abel
      · try simp only [← Multiset.coe_add, ← Multiset.cons_coe, ← Multiset.singleton_add,
            Multiset.coe_nil, add_zero]
        abel
      · omega
      · omega
    · split
      · refine balanced_set cfg s _ id _ _ h hb rfl ?_
        simp only [settled, due, held, handledJobs, pendingJobs, matchRecords, OcrCall.records,
          OcrCall.succeeded, resizeFailures_append, textFailures_append, resizeFailures,
          textFailures, Prod.mk_add_mk, Prod.mk.injEq, add_zero, zero_add,
          List.cons_append, List.map_append, List.map_cons, List.map_nil, List.flatMap_append,
          List.flatMap_cons, List.flatMap_nil, List.filter_append, List.filter_cons,
          List.filter_nil, List.length_append, List.length_cons, List.length_nil,
          List.append_nil, List.nil_append, Bool.not_true, Bool.not_false, Bool.false_eq_true,
          if_true, if_false, List.append_assoc]
        refine ⟨?_, ?_, ?_, ?_⟩
        · try simp only [← Multiset.coe_add, ← Multiset.cons_coe, ← Multiset.singleton_add,
              Multiset.coe_nil, add_zero]
          abel
        · try simp only [← Multiset.coe_add, ← Multiset.cons_coe, ← Multiset.singleton_add,
              Multiset.coe_nil, add_zero]
          abel
        · omega
        · omega
      · exact hb
  · rename_i imagePath h
    split
    · refine balanced_set cfg s _ id _ _ h hb rfl ?_
      simp only [settled, due, held, handledJobs, pendingJobs, matchRecords, OcrCall.records,
        OcrCall.succeeded, resizeFailures_append, textFailures_append, resizeFailures,
        textFailures, Prod.mk_add_mk, Prod.mk.injEq, add_zero, zero_add,
        List.cons_append, List.map_append, List.map_cons, List.map_nil, List.flatMap_append,
        List.flatMap_cons, List.flatMap_nil, List.filter_append, List.filter_cons,
        List.filter_nil, List.length_append, List.length_cons, List.length_nil,
        List.append_nil, List.nil_append, Bool.not_true, Bool.not_false, Bool.false_eq_true,
        if_true, if_false, List.append_assoc]
      refine ⟨?_, ?_, ?_, ?_⟩
      · try simp only [← Multiset.coe_add, ← Multiset.cons_coe, ← Multiset.singleton_add,
            Multiset.coe_nil, add_zero]
        abel
      · try simp only [← Multiset.coe_add, ← Multiset.cons_coe, ← Multiset.singleton_add,
            Multiset.coe_nil, add_zero]
        abel
      · omega
      · omega
    · refine balanced_set cfg s _ id _ _ h hb rfl ?_
      simp only [settled, due, held, handledJobs, pendingJobs, matchRecords, OcrCall.records,
        OcrCall.succeeded, resizeFailures_append, textFailures_append, resizeFailures,
        textFailures, Prod.mk_add_mk, Prod.mk.injEq, add_zero, zero_add,
        List.cons_append, List.map_append, List.map_cons, List.map_nil, List.flatMap_append,
        List.flatMap_cons, List.flatMap_nil, List.filter_append, List.filter_cons,
        List.filter_nil, List.length_append, List.length_cons, List.length_nil,
        List.append_nil, List.nil_append, Bool.not_true, Bool.not_false, Bool.false_eq_true,
        if_true, if_false, List.append_assoc]
      refine ⟨?_, ?_, ?_, ?_⟩
      · try simp only [← Multiset.coe_add, ← Multiset.cons_coe, ← Multiset.singleton_add,
            Multiset.coe_nil, add_zero]
        abel
      · try simp only [← Multiset.coe_add, ← Multiset.cons_coe, ← Multiset.singleton_add,
            Multiset.coe_nil, add_zero]
        abel
      · omega
      · omega
  · rename_i imagePath processedPath h
    split
    · refine balanced_set cfg s _ id _ _ h hb rfl ?_
      simp only [settled, due, held, handledJobs, pendingJobs, matchRecords, OcrCall.records,
        OcrCall.succeeded, resizeFailures_append, textFailures_append, resizeFailures,
        textFailures, Prod.mk_add_mk, Prod.mk.injEq, add_zero, zero_add,
        List.cons_append, List.map_append, List.map_cons, List.map_nil, List.flatMap_append,
        List.flatMap_cons, List.flatMap_nil, List.filter_append, List.filter_cons,
        List.filter_nil, List.length_append, List.length_cons, List.length_nil,
        List.append_nil, List.nil_append, Bool.not_true, Bool.not_false, Bool.false_eq_true,
        if_true, if_false, List.append_assoc]
      refine ⟨?_, ?_, ?_, ?_⟩
      · try simp only [← Multiset.coe_add, ← Multiset.cons_coe, ← Multiset.singleton_add,
            Multiset.coe_nil, add_zero]
        abel
      · try simp only [← Multiset.coe_add, ← Multiset.cons_coe, ← Multiset.singleton_add,
            Multiset.coe_nil, add_zero]
        abel
      · omega
      · omega
    · refine balanced_set cfg s _ id _ _ h hb rfl ?_
      simp only [settled, due, held, handledJobs, pendingJobs, matchRecords, OcrCall.records,
        OcrCall.succeeded, resizeFailures_append, textFailures_append, resizeFailures,
        textFailures, Prod.mk_add_mk, Prod.mk.injEq, add_zero, zero_add,
        List.cons_append, List.map_append, List.map_cons, List.map_nil, List.flatMap_append,
        List.flatMap_cons, List.flatMap_nil, List.filter_append, List.filter_cons,
        List.filter_nil, List.length_append, List.length_cons, List.length_nil,
        List.append_nil, List.nil_append, Bool.not_true, Bool.not_false, Bool.false_eq_true,
        if_true, if_false, List.append_assoc]
      refine ⟨?_, ?_, ?_, ?_⟩
      · try simp only [← Multiset.coe_add, ← Multiset.cons_coe, ← Multiset.singleton_add,
            Multiset.coe_nil, add_zero]
        abel
      · try simp only [← Multiset.coe_add, ← Multiset.cons_coe, ← Multiset.singleton_add,
            Multiset.coe_nil, add_zero]
        abel
      · omega
      · omega
  · rename_i imagePath line rest h
    split
    · rename_i hc
      refine balanced_set cfg s _ id _ _ h hb rfl ?_
      simp only [settled, due, held, handledJobs, pendingJobs, matchRecords, OcrCall.records,
        OcrCall.succeeded, resizeFailures_append, textFailures_append, resizeFailures,
        textFailures, Prod.mk_add_mk, Prod.mk.injEq, add_zero, zero_add,
        List.cons_append, List.map_append, List.map_cons, List.map_nil, List.flatMap_append,
        List.flatMap_cons, List.flatMap_nil, List.filter_append, List.filter_cons,
        List.filter_nil, List.length_append, List.length_cons, List.length_nil,
        List.append_nil, List.nil_append, Bool.not_true, Bool.not_false, Bool.false_eq_true,
        if_true, if_false, List.append_assoc, hc]
      refine ⟨?_, ?_, ?_, ?_⟩
      · try simp only [← Multiset.coe_add, ← Multiset.cons_coe, ← Multiset.singleton_add,
            Multiset.coe_nil, add_zero]
        abel
      · try simp only [← Multiset.coe_add, ← Multiset.cons_coe, ← Multiset.singleton_add,
            Multiset.coe_nil, add_zero]
        abel
      · omega
      · omega
    · rename_i hc
      refine balanced_set cfg s _ id _ _ h hb rfl ?_
      simp only [settled, due, held, handledJobs, pendingJobs, matchRecords, OcrCall.records,
        OcrCall.succeeded, resizeFailures_append, textFailures_append, resizeFailures,
        textFailures, Prod.mk_add_mk, Prod.mk.injEq, add_zero, zero_add,
        List.cons_append, List.map_append, List.map_cons, List.map_nil, List.flatMap_append,
        List.flatMap_cons, List.flatMap_nil, List.filter_append, List.filter_cons,
        List.filter_nil, List.length_append, List.length_cons, List.length_nil,
        List.append_nil, List.nil_append, Bool.not_true, Bool.not_false, Bool.false_eq_true,
        if_true, if_false, List.append_assoc, hc]
      refine ⟨?_, ?_, ?_, ?_⟩
      · try simp only [← Multiset.coe_add, ← Multiset.cons_coe, ← Multiset.singleton_add,
            Multiset.coe_nil, add_zero]
        abel
      · try simp only [← Multiset.coe_add, ← Multiset.cons_coe, ← Multiset.singleton_add,
            Multiset.coe_nil, add_zero]
        abel
      · omega
      · omega
  · rename_i imagePath result rest h
    refine balanced_set cfg s _ id _ _ h hb rfl ?_
    simp only [settled, due, held, handledJobs, pendingJobs, matchRecords, OcrCall.records,
      OcrCall.succeeded, resizeFailures_append, textFailures_append, resizeFailures,
      textFailures, Prod.mk_add_mk, Prod.mk.injEq, add_zero, zero_add,
      List.cons_append, List.map_append, List.map_cons, List.map_nil, List.flatMap_append,
      List.flatMap_cons, List.flatMap_nil, List.filter_append, List.filter_cons,
      List.filter_nil, List.length_append, List.length_cons, List.length_nil,
      List.append_nil, List.nil_append, Bool.not_true, Bool.not_false, Bool.false_eq_true,
      if_true, if_false, List.append_assoc]
    refine ⟨?_, ?_, ?_, ?_⟩
    · try simp only [← Multiset.coe_add, ← Multiset.cons_coe, ← Multiset.singleton_add,
          Multiset.coe_nil, add_zero]
      abel
    · try simp only [← Multiset.coe_add, ← Multiset.cons_coe, ← Multiset.singleton_add,
          Multiset.coe_nil, add_zero]
      abel
    · omega
    · omega
  · rename_i imagePath h
    refine balanced_set cfg s _ id _ _ h hb rfl ?_
    simp only [settled, due, held, handledJobs, pendingJobs, matchRecords, OcrCall.records,
      OcrCall.succeeded, resizeFailures_append, textFailures_append, resizeFailures,
      textFailures, Prod.mk_add_mk, Prod.mk.injEq, add_zero, zero_add,
      List.cons_append, List.map_append, List.map_cons, List.map_nil, List.flatMap_append,
      List.flatMap_cons, List.flatMap_nil, List.filter_append, List.filter_cons,
      List.filter_nil, List.length_append, List.length_cons, List.length_nil,
      List.append_nil, List.nil_append, Bool.not_true, Bool.not_false, Bool.false_eq_true,
      if_true, if_false, List.append_assoc]
    refine ⟨?_, ?_, ?_, ?_⟩
    · try simp only [← Multiset.coe_add, ← Multiset.cons_coe, ← Multiset.singleton_add,
          Multiset.coe_nil, add_zero]
      abel
    · try simp only [← Multiset.coe_add, ← Multiset.cons_coe, ← Multiset.singleton_add,
          Multiset.coe_nil, add_zero]
      abel
    · omega
    · omega
  · exact hb

theorem balanced_persist (cfg : Config) (s : Sys) (hb : Balanced cfg s)
    (h : unsent s.main = []) : Balanced cfg (persist cfg s) := by
  have e : ∀ n, unsent (MainPc.exited n) = [] := fun _ => rfl
  have hb' : settled s + (s.workers.map (held cfg.searchString)).sum = due cfg s := hb
  unfold persist
  split
  · dsimp only
    split
    · simpa [Balanced, settled, due, handledJobs, pendingJobs, h, e, resizeFailures_append,
        textFailures_append, resizeFailures, textFailures] using hb'
    · simpa [Balanced, settled, due, handledJobs, pendingJobs, h, e] using hb'
  · simpa [Balanced, settled, due, handledJobs, pendingJobs, h, e] using hb'

theorem balanced_mainStep (cfg : Config) (s : Sys) (hb : Balanced cfg s) :
    Balanced cfg (mainStep cfg s) := by
  have hb' : settled s + (s.workers.map (held cfg.searchString)).sum = due cfg s := hb
  unfold mainStep
  split
  · rename_i imagePath rest hm
    split
    · simpa [Balanced, settled, due, handledJobs, pendingJobs, unsent, hm] using hb'
    · exact hb
  · rename_i hm
    simpa [Balanced, settled, due, handledJobs, pendingJobs, unsent, hm] using hb'
  · rename_i hm
    split
    · exact balanced_persist cfg s hb (by simp [unsent, hm])
    · exact hb
  · exact hb

theorem balanced_reporterStep (cfg : Config) (s : Sys) (hb : Balanced cfg s) :
    Balanced cfg (reporterStep cfg s) := by
  unfold reporterStep
  split
  · exact hb
  · split <;> exact hb
  · exact hb

theorem balanced_step (cfg : Config) (s : Sys) (a : Actor) (hb : Balanced cfg s) :
    Balanced cfg (step cfg s a) := by
  unfold step
  split
  · exact hb
  · cases a with
    | main => exact balanced_mainStep cfg s hb
    | worker id => exact balanced_workerStep cfg id s hb
    | reporter => exact balanced_reporterStep cfg s hb

theorem run_snoc (cfg : Config) (sched : List Actor) (a : Actor) (s : Sys) :
    run cfg (sched ++ [a]) s = step cfg (run cfg sched s) a := by
  simp [run, List.foldl_append]

/-- Induction over the runs of the pool. -/
theorem reachable_induction (cfg : Config) (P : Sys → Prop) (h0 : P (initSys cfg))
    (hstep : ∀ s a, Reachable cfg s → P s → P (step cfg s a)) :
    ∀ s, Reachable cfg s → P s := by
  rintro s ⟨sched, rfl⟩
  induction sched using List.reverseRecOn with
  | nil => exact h0
  | append_singleton sched a ih =>
    rw [run_snoc]
    exact hstep _ a ⟨sched, rfl⟩ ih

theorem balanced_init (cfg : Config) : Balanced cfg (initSys cfg) := by
  have hz : ∀ n : Nat,
      ((List.replicate n WorkerPc.recv).map (held cfg.searchString)).sum = 0 := by
    intro n
    induction n with
    | zero => rfl
    | succ n ih => simp [List.replicate_succ, held, ih]
  simp only [Balanced, initSys, hz, add_zero]
  simp [settled, due, handledJobs, pendingJobs, unsent, resizeFailures, textFailures]

theorem balanced_reachable (cfg : Config) (s : Sys) (h : Reachable cfg s) : Balanced cfg s :=
  reachable_induction cfg (Balanced cfg) (balanced_init cfg)
    (fun s a _ ih => balanced_step cfg s a ih) s h

/-! ## The control invariant -/

theorem wellFormed_set (cfg : Config) (s s' : Sys) (hw : WellFormed cfg s) (id : Nat)
    (new : WorkerPc) (hnew : new ≠ WorkerPc.stopped)
    (h1 : s'.workers = s.workers.set id new) (h2 : s'.main = s.main)
    (h3 : s'.closed = s.closed) (h4 : s'.chan = s.chan) : WellFormed cfg s' := by
  refine ⟨by rw [h1]; simpa using hw.1, by rw [h2, h3]; exact hw.2, ?_, by rw [h2, h4]; exact hw.4,
    by rw [h2, h3]; exact hw.5⟩
  intro hmem
  rw [h1] at hmem
  rw [h3, h4]
  rcases List.mem_or_eq_of_mem_set hmem with hm | hm
  · exact hw.3 hm
  · exact absurd hm.symm hnew

theorem wellFormed_workerStep (cfg : Config) (id : Nat) (s : Sys) (hw : WellFormed cfg s) :
    WellFormed cfg (workerStep cfg id s) := by
  unfold workerStep
  split
  · exact hw
  · split
    · rename_i imagePath rest hch
      refine ⟨by simpa using hw.1, hw.2, ?_, ?_, hw.5⟩
      · intro hmem
        rcases List.mem_or_eq_of_mem_set hmem with hm | hm
        · have := (hw.3 hm).2
          rw [hch] at this
          exact absurd this (by simp)
        · exact absurd hm (by simp)
      · have := hw.4
        rw [hch] at this
        simp only [List.length_cons] at this
        show rest.length + (unsent s.main).length ≤ cfg.totalImages
        omega
    · rename_i hch
      split
      · rename_i hcl
        exact ⟨by simpa using hw.1, hw.2, fun _ => ⟨hcl, hch⟩, hw.4, hw.5⟩
      · exact hw
  · split
    · exact wellFormed_set cfg s _ hw id _ (by simp) rfl rfl rfl rfl
    · exact wellFormed_set cfg s _ hw id _ (by simp) rfl rfl rfl rfl
  · split
    · exact wellFormed_set cfg s _ hw id _ (by simp) rfl rfl rfl rfl
    · exact wellFormed_set cfg s _ hw id _ (by simp) rfl rfl rfl rfl
  · split
    · exact wellFormed_set cfg s _ hw id _ (by simp) rfl rfl rfl rfl
    · exact wellFormed_set cfg s _ hw id _ (by simp) rfl rfl rfl rfl
  · exact wellFormed_set cfg s _ hw id _ (by simp) rfl rfl rfl rfl
  · exact wellFormed_set cfg s _ hw id _ (by simp) rfl rfl rfl rfl
  · exact hw

theorem wellFormed_persist (cfg : Config) (s : Sys) (hw : WellFormed cfg s)
    (hm : s.main = MainPc.waiting) : WellFormed cfg (persist cfg s) := by
  have e : ∀ n, unsent (MainPc.exited n) = [] := fun _ => rfl
  have hcap : s.chan.length + 0 ≤ cfg.totalImages := by
    have := hw.4
    rw [hm] at this
    exact this
  have hcl : s.closed = true := hw.5 (by rw [hm]; simp)
  unfold persist
  split
  · dsimp only
    split
    · exact ⟨hw.1, fun _ => e 1, hw.3, hcap, fun _ => hcl⟩
    · exact ⟨hw.1, fun _ => e 0, hw.3, hcap, fun _ => hcl⟩
  · exact ⟨hw.1, fun _ => e 0, hw.3, hcap, fun _ => hcl⟩

theorem wellFormed_mainStep (cfg : Config) (s : Sys) (hw : WellFormed cfg s) :
    WellFormed cfg (mainStep cfg s) := by
  unfold mainStep
  split
  · rename_i imagePath rest hm
    split
    · have hcl : s.closed = false := by
        cases hc : s.closed with
        | false => rfl
        | true =>
          have := hw.2 hc
          rw [hm] at this
          exact absurd this (by simp [unsent])
      refine ⟨hw.1, ?_, ?_, ?_, ?_⟩
      · intro hc
        exact absurd (hcl ▸ hc : false = true) (by simp)
      · intro hmem
        have := (hw.3 hmem).1
        rw [hcl] at this
        exact absurd this (by simp)
      · have := hw.4
        rw [hm] at this
        simp only [unsent, List.length_cons] at this
        simp only [unsent, List.length_append, List.length_singleton]
        omega
      · intro h
        exact absurd rfl (h rest)
    · exact hw
  · rename_i hm
    refine ⟨hw.1, fun _ => rfl, ?_, ?_, fun _ => rfl⟩
    · intro hmem
      exact ⟨rfl, (hw.3 hmem).2⟩
    · have := hw.4
      rw [hm] at this
      exact this
  · rename_i hm
    split
    · exact wellFormed_persist cfg s hw hm
    · exact hw
  · exact hw

theorem wellFormed_reporterStep (cfg : Config) (s : Sys) (hw : WellFormed cfg s) :
    WellFormed cfg (reporterStep cfg s) := by
  unfold reporterStep
  split
  · exact ⟨hw.1, hw.2, hw.3, hw.4, hw.5⟩
  · split
    · exact ⟨hw.1, hw.2, hw.3, hw.4, hw.5⟩
    · exact ⟨hw.1, hw.2, hw.3, hw.4, hw.5⟩
  · exact hw

theorem wellFormed_step (cfg : Config) (s : Sys) (a : Actor) (hw : WellFormed cfg s) :
    WellFormed cfg (step cfg s a) := by
  unfold step
  split
  · exact hw
  · cases a with
    | main => exact wellFormed_mainStep cfg s hw
    | worker id => exact wellFormed_workerStep cfg id s hw
    | reporter => exact wellFormed_reporterStep cfg s hw

theorem wellFormed_init (cfg : Config) : WellFormed cfg (initSys cfg) := by
  refine ⟨by simp [initSys], by simp [initSys], ?_, ?_, ?_⟩
  · intro hmem
    simp only [initSys] at hmem
    exact absurd (List.eq_of_mem_replicate hmem) (by simp)
  · simp [initSys, unsent, Config.totalImages]
  · intro h
    exact absurd rfl (h cfg.imageFiles)

theorem wellFormed_reachable (cfg : Config) (s : Sys) (h : Reachable cfg s) :
    WellFormed cfg s :=
  reachable_induction cfg (WellFormed cfg) (wellFormed_init cfg)
    (fun s a _ ih => wellFormed_step cfg s a ih) s h

/-! ## Every run can be brought to its end -/

theorem nearer_set (s s' : Sys) (id : Nat) (old new : WorkerPc)
    (h : s.workers.get? id = some old) (hw : s'.workers = s.workers.set id new)
    (hm : s'.main = s.main)
    (hlt : 3 * s'.chan.length + workerCost new < 3 * s.chan.length + workerCost old ∨
      (s'.chan = s.chan ∧ workerCost new = workerCost old ∧ scanCost new < scanCost old)) :
    Nearer s' s := by
  have h1 := sum_map_set workerCost s.workers id old new h
  have h2 := sum_map_set scanCost s.workers id old new h
  unfold Nearer stepsLeft scanLeft
  rw [hw, hm]
  rcases hlt with hlt | ⟨hc, he, hlt⟩
  · left
    omega
  · right
    rw [hc]
    constructor <;> omega

theorem nearer_workerStep (cfg : Config) (id : Nat) (s : Sys) (w : WorkerPc)
    (h : s.workers.get? id = some w) (hw : w ≠ WorkerPc.stopped)
    (hcl : s.chan = [] → s.closed = true) :
    Nearer (workerStep cfg id s) s := by
  unfold workerStep
  split
  · rename_i hn
    rw [hn] at h
    exact absurd h (by simp)
  · rename_i h'
    split
    · rename_i imagePath rest hch
      refine nearer_set s _ id _ _ h' rfl rfl (Or.inl ?_)
      simp only [workerCost, hch, List.length_cons]
      omega
    · rename_i hch
      rw [if_pos (hcl hch)]
      refine nearer_set s _ id _ _ h' rfl rfl (Or.inl ?_)
      simp only [workerCost]
      omega
  · rename_i imagePath h'
    split
    · refine nearer_set s _ id _ _ h' rfl rfl (Or.inl ?_)
      simp only [workerCost]
      omega
    · refine nearer_set s _ id _ _ h' rfl rfl (Or.inl ?_)
      simp only [workerCost]
      omega
  · rename_i imagePath processedPath h'
    split
    · refine nearer_set s _ id _ _ h' rfl rfl (Or.inl ?_)
      simp only [workerCost]
      omega
    · refine nearer_set s _ id _ _ h' rfl rfl (Or.inl ?_)
      simp only [workerCost]
      omega
  · rename_i imagePath line rest h'
    split
    · refine nearer_set s _ id _ _ h' rfl rfl (Or.inr ⟨rfl, rfl, ?_⟩)
      simp only [scanCost, List.length_cons]
      omega
    · refine nearer_set s _ id _ _ h' rfl rfl (Or.inr ⟨rfl, rfl, ?_⟩)
      simp only [scanCost, List.length_cons]
      omega
  · rename_i imagePath result rest h'
    refine nearer_set s _ id _ _ h' rfl rfl (Or.inr ⟨rfl, rfl, ?_⟩)
    simp only [scanCost]
    omega
  · rename_i imagePath h'
    refine nearer_set s _ id _ _ h' rfl rfl (Or.inr ⟨rfl, rfl, ?_⟩)
    simp only [scanCost, List.length_nil]
    omega
  · rename_i h'
    rw [h'] at h
    exact absurd (Option.some.inj h).symm hw

theorem persist_main (cfg : Config) (s : Sys) :
    ∃ status, (persist cfg s).main = MainPc.exited status ∧
      (persist cfg s).chan = s.chan ∧ (persist cfg s).workers = s.workers := by
  unfold persist
  split
  · dsimp only
    split
    · exact ⟨1, rfl, rfl, rfl⟩
    · exact ⟨0, rfl, rfl, rfl⟩
  · exact ⟨0, rfl, rfl, rfl⟩

theorem exists_not_stopped (ws : List WorkerPc)
    (h : ¬ ws.all (fun w => decide (w = WorkerPc.stopped)) = true) :
    ∃ id w, ws.get? id = some w ∧ w ≠ WorkerPc.stopped := by
  simp only [List.all_eq_true, decide_eq_true_eq, not_forall] at h
  obtain ⟨w, hmem, hne⟩ := h
  obtain ⟨id, hid⟩ := List.get?_of_mem hmem
  exact ⟨id, w, hid, hne⟩

/-- While `main` has not exited, `main` or some worker can take a step, and the
step brings the end nearer. -/
theorem progress (cfg : Config) (s : Sys) (hw : WellFormed cfg s)
    (hrun : ∀ status, s.main ≠ MainPc.exited status) :
    ∃ a : Actor, Nearer (step cfg s a) s := by
  have hstep : ∀ a, step cfg s a =
      match a with
      | Actor.main => mainStep cfg s
      | Actor.worker id => workerStep cfg id s
      | Actor.reporter => reporterStep cfg s := by
    intro a
    unfold step
    split
    · rename_i status hm
      exact absurd hm (hrun status)
    · rfl
  cases hm : s.main with
  | sending rest =>
    refine ⟨Actor.main, Or.inl ?_⟩
    rw [hstep]
    simp only [mainStep, hm]
    cases rest with
    | nil => simp [stepsLeft, mainCost, hm]
    | cons imagePath rest =>
      have hcap := hw.4
      rw [hm] at hcap
      simp only [unsent, List.length_cons] at hcap
      have hlt : s.chan.length < cfg.totalImages := by omega
      simp only [hlt, if_true]
      simp only [stepsLeft, mainCost, hm, List.length_cons, List.length_append,
        List.length_nil]
      omega
  | waiting =>
    by_cases hall : s.workers.all (fun w => decide (w = WorkerPc.stopped)) = true
    · refine ⟨Actor.main, Or.inl ?_⟩
      rw [hstep]
      simp only [mainStep, hm, hall, if_true]
      obtain ⟨status, h1, h2, h3⟩ := persist_main cfg s
      simp only [stepsLeft, h1, h2, h3, hm, mainCost]
      omega
    · obtain ⟨id, w, hid, hne⟩ := exists_not_stopped s.workers hall
      refine ⟨Actor.worker id, ?_⟩
      rw [hstep]
      exact nearer_workerStep cfg id s w hid hne
        (fun _ => hw.5 (by rw [hm]; simp))
  | exited status => exact absurd hm (hrun status)

theorem run_cons (cfg : Config) (a : Actor) (sched : List Actor) (s : Sys) :
    run cfg (a :: sched) s = run cfg sched (step cfg s a) := rfl

/-- From every well-formed state some schedule makes `main` exit. -/
theorem can_finish (cfg : Config) (s : Sys) (hw : WellFormed cfg s) :
    ∃ (sched : List Actor) (status : Nat), (run cfg sched s).main = MainPc.exited status := by
  generalize hn : stepsLeft s = n
  induction n using Nat.strong_induction_on generalizing s with
  | _ n ihn =>
    generalize hk : scanLeft s = k
    induction k using Nat.strong_induction_on generalizing s with
    | _ k ihk =>
      by_cases hrun : ∀ status, s.main ≠ MainPc.exited status
      · obtain ⟨a, ha⟩ := progress cfg s hw hrun
        have hw' := wellFormed_step cfg s a hw
        rcases ha with hlt | ⟨heq, hlt⟩
        · obtain ⟨sched, status, hfin⟩ := ihn (stepsLeft (step cfg s a)) (hn ▸ hlt)
            (step cfg s a) hw' rfl
          exact ⟨a :: sched, status, by rw [run_cons]; exact hfin⟩
        · obtain ⟨sched, status, hfin⟩ := ihk (scanLeft (step cfg s a)) (hk ▸ hlt)
            (step cfg s a) hw' (heq.trans hn) rfl
          exact ⟨a :: sched, status, by rw [run_cons]; exact hfin⟩
      · simp only [not_forall, not_not] at hrun
        obtain ⟨status, hst⟩ := hrun
        exact ⟨[], status, hst⟩

/-! ## What the steps leave alone -/

theorem workerStep_frame (cfg : Config) (id : Nat) (s : Sys) :
    (workerStep cfg id s).main = s.main ∧ (workerStep cfg id s).files = s.files := by
  unfold workerStep
  repeat' split
  all_goals exact ⟨rfl, rfl⟩

theorem reporterStep_frame (cfg : Config) (s : Sys) :
    (reporterStep cfg s).main = s.main ∧ (reporterStep cfg s).files = s.files ∧
      (reporterStep cfg s).workers = s.workers ∧
      (reporterStep cfg s).shared.results = s.shared.results := by
  unfold reporterStep
  repeat' split
  all_goals exact ⟨rfl, rfl, rfl, rfl⟩

theorem mainStep_cases (cfg : Config) (s : Sys) :
    (s.main = MainPc.waiting ∧ allStopped s = true ∧ mainStep cfg s = persist cfg s) ∨
    ((mainStep cfg s = s ∨ ∀ status, (mainStep cfg s).main ≠ MainPc.exited status) ∧
      (mainStep cfg s).files = s.files ∧ (mainStep cfg s).workers = s.workers ∧
      (mainStep cfg s).shared = s.shared) := by
  unfold mainStep
  split
  · split
    · exact Or.inr ⟨Or.inr (by simp), rfl, rfl, rfl⟩
    · exact Or.inr ⟨Or.inl rfl, rfl, rfl, rfl⟩
  · exact Or.inr ⟨Or.inr (by simp), rfl, rfl, rfl⟩
  · rename_i hm
    by_cases hall : s.workers.all (fun w => decide (w = WorkerPc.stopped)) = true
    · rw [if_pos hall]
      exact Or.inl ⟨hm, hall, rfl⟩
    · rw [if_neg hall]
      exact Or.inr ⟨Or.inl rfl, rfl, rfl, rfl⟩
  · exact Or.inr ⟨Or.inl rfl, rfl, rfl, rfl⟩

theorem step_cases (cfg : Config) (s : Sys) (a : Actor) :
    step cfg s a = s ∨
    ((∀ status, s.main ≠ MainPc.exited status) ∧
      (step cfg s a = mainStep cfg s ∨ (∃ id, step cfg s a = workerStep cfg id s) ∨
        step cfg s a = reporterStep cfg s)) := by
  unfold step
  split
  · exact Or.inl rfl
  · rename_i hne
    refine Or.inr ⟨fun status h => hne status h, ?_⟩
    cases a with
    | main => exact Or.inl rfl
    | worker id => exact Or.inr (Or.inl ⟨id, rfl⟩)
    | reporter => exact Or.inr (Or.inr rfl)

/-- The process exits only after every worker has returned. -/
theorem exited_all_stopped (cfg : Config) (s : Sys) (h : Reachable cfg s) :
    ∀ status, s.main = MainPc.exited status → allStopped s = true := by
  refine reachable_induction cfg
    (fun s => ∀ status, s.main = MainPc.exited status → allStopped s = true) ?_ ?_ s h
  · intro status hm
    simp [initSys] at hm
  · intro s a _ ih status hm
    rcases step_cases cfg s a with he | ⟨hrun, hm' | ⟨id, hw⟩ | hr⟩
    · rw [he] at hm ⊢
      exact ih status hm
    · rw [hm'] at hm ⊢
      rcases mainStep_cases cfg s with ⟨_, hall, hp⟩ | ⟨hor, _, _, _⟩
      · obtain ⟨_, _, _, h3⟩ := persist_main cfg s
        rw [hp]
        simp only [allStopped, h3]
        exact hall
      · rcases hor with he | hne
        · rw [he] at hm
          exact absurd hm (hrun status)
        · exact absurd hm (hne status)
    · rw [hw] at hm
      rw [(workerStep_frame cfg id s).1] at hm
      exact absurd hm (hrun status)
    · rw [hr] at hm
      rw [(reporterStep_frame cfg s).1] at hm
      exact absurd hm (hrun status)

/-- Some schedule brings the pool to the point where every worker has returned. -/
theorem pool_can_stop (cfg : Config) :
    ∃ sched : List Actor, allStopped (run cfg sched (initSys cfg)) = true := by
  obtain ⟨sched, status, h⟩ := can_finish cfg (initSys cfg) (wellFormed_init cfg)
  exact ⟨sched, exited_all_stopped cfg _ ⟨sched, rfl⟩ status h⟩

theorem run_append (cfg : Config) (sched more : List Actor) (s : Sys) :
    run cfg (sched ++ more) s = run cfg more (run cfg sched s) := by
  simp [run, List.foldl_append]

/-! ## What the steps only ever increase -/

theorem workerStep_mono (cfg : Config) (id : Nat) (s : Sys) :
    s.shared.counter ≤ (workerStep cfg id s).shared.counter ∧
    abandoned s ≤ abandoned (workerStep cfg id s) ∧
    (workerStep cfg id s).reporter = s.reporter := by
  unfold workerStep
  repeat' split
  all_goals
    refine ⟨?_, ?_, rfl⟩
    · simp
    · simp [abandoned, resizeFailures_append, textFailures_append, resizeFailures,
        textFailures]

theorem persist_mono (cfg : Config) (s : Sys) :
    (persist cfg s).shared.counter = s.shared.counter ∧
    abandoned (persist cfg s) = abandoned s ∧
    (persist cfg s).reporter = s.reporter := by
  unfold persist
  dsimp only
  repeat' split
  all_goals
    refine ⟨rfl, ?_, rfl⟩
    simp [abandoned, resizeFailures_append, textFailures_append, resizeFailures,
      textFailures]

theorem mainStep_mono (cfg : Config) (s : Sys) :
    (mainStep cfg s).shared.counter = s.shared.counter ∧
    abandoned (mainStep cfg s) = abandoned s ∧
    (mainStep cfg s).reporter = s.reporter := by
  unfold mainStep
  split
  · split <;> exact ⟨rfl, rfl, rfl⟩
  · exact ⟨rfl, rfl, rfl⟩
  · split
    · exact persist_mono cfg s
    · exact ⟨rfl, rfl, rfl⟩
  · exact ⟨rfl, rfl, rfl⟩

theorem reporterStep_mono (cfg : Config) (s : Sys) :
    (reporterStep cfg s).shared.counter = s.shared.counter ∧
    abandoned (reporterStep cfg s) = abandoned s := by
  unfold reporterStep
  repeat' split
  all_goals exact ⟨rfl, rfl⟩

theorem step_mono (cfg : Config) (s : Sys) (a : Actor) :
    s.shared.counter ≤ (step cfg s a).shared.counter ∧ abandoned s ≤ abandoned (step cfg s a) := by
  rcases step_cases cfg s a with he | ⟨_, hm | ⟨id, hw⟩ | hr⟩
  · rw [he]
    exact ⟨le_refl _, le_refl _⟩
  · rw [hm, (mainStep_mono cfg s).1, (mainStep_mono cfg s).2.1]
    exact ⟨le_refl _, le_refl _⟩
  · rw [hw]
    exact ⟨(workerStep_mono cfg id s).1, (workerStep_mono cfg id s).2.1⟩
  · rw [hr, (reporterStep_mono cfg s).1, (reporterStep_mono cfg s).2]
    exact ⟨le_refl _, le_refl _⟩

theorem run_mono (cfg : Config) (more : List Actor) (s : Sys) :
    s.shared.counter ≤ (run cfg more s).shared.counter ∧ abandoned s ≤ abandoned (run cfg more s) := by
  induction more generalizing s with
  | nil => exact ⟨le_refl _, le_refl _⟩
  | cons a more ih =>
    rw [run_cons]
    have h1 := step_mono cfg s a
    have h2 := ih (step cfg s a)
    exact ⟨le_trans h1.1 h2.1, le_trans h1.2 h2.2⟩

/-- The reporter returns only on a counter that has reached the number of
images. -/
theorem returned_counter (cfg : Config) (s : Sys) (h : Reachable cfg s) :
    s.reporter = ReporterPc.returned → cfg.totalImages ≤ s.shared.counter := by
  refine reachable_induction cfg
    (fun s => s.reporter = ReporterPc.returned → cfg.totalImages ≤ s.shared.counter) ?_ ?_ s h
  · intro hr
    simp [initSys] at hr
  · intro s a _ ih hr
    rcases step_cases cfg s a with he | ⟨_, hm | ⟨id, hw⟩ | hrp⟩
    · rw [he] at hr ⊢
      exact ih hr
    · rw [hm] at hr ⊢
      rw [(mainStep_mono cfg s).2.2] at hr
      rw [(mainStep_mono cfg s).1]
      exact ih hr
    · rw [hw] at hr ⊢
      rw [(workerStep_mono cfg id s).2.2] at hr
      exact le_trans (ih hr) (workerStep_mono cfg id s).1
    · rw [hrp] at hr ⊢
      rw [(reporterStep_mono cfg s).1]
      revert hr
      unfold reporterStep
      split
      · intro hr
        simp at hr
      · split
        · rename_i hge
          intro _
          exact hge
        · intro hr
          simp at hr
      · rename_i hret
        intro _
        exact ih hret

/-! ## Consequences of the balance -/

theorem held_sum (searchString : GoString) (ws : List WorkerPc) :
    Multiset.card ((ws.map (held searchString)).sum).1 +
        ((ws.map (held searchString)).sum).2.2.1 = (ws.filter WorkerPc.busy).length ∧
      ((ws.map (held searchString)).sum).2.2.2 = 0 := by
  induction ws with
  | nil => simp
  | cons w ws ih =>
    obtain ⟨ih1, ih2⟩ := ih
    cases w <;>
      simp [held, WorkerPc.busy, List.filter_cons, ih2] <;> omega

theorem held_sum_matching (searchString : GoString) (ws : List WorkerPc) :
    ((ws.map (held searchString)).sum).2.2.1 = (ws.filter WorkerPc.matching).length := by
  induction ws with
  | nil => simp
  | cons w ws ih =>
    cases w <;>
      simp [held, WorkerPc.matching, List.filter_cons, ih] <;> omega

/-- The counter is the number of jobs whose text was extracted, less those whose
lines are still being visited. -/
theorem loop_balance (cfg : Config) (s : Sys) (hb : Balanced cfg s) :
    s.shared.counter + inLoop s = (okCalls s).length := by
  have hb' : settled s + (s.workers.map (held cfg.searchString)).sum = due cfg s := hb
  have h3 := congrArg (fun x : Acct => x.2.2.1) hb'
  have hm := held_sum_matching cfg.searchString s.workers
  simp only [settled, due, Prod.snd_add, Prod.fst_add] at h3
  simp only [inLoop, okCalls]
  omega

theorem length_filter_add (calls : List OcrCall) :
    (calls.filter OcrCall.succeeded).length + (calls.filter (fun c => !c.succeeded)).length =
      calls.length := by
  induction calls with
  | nil => rfl
  | cons c calls ih =>
    by_cases hc : c.succeeded = true
    · simp [List.filter_cons, hc]
      omega
    · simp [List.filter_cons, hc]
      omega

/-- Every job is pending, in a worker's hands, abandoned or counted, and only
one of these. -/
theorem count_balance (cfg : Config) (s : Sys) (hb : Balanced cfg s) :
    s.shared.counter + abandoned s + inFlight s + (pendingJobs s).length = cfg.totalImages := by
  have hb' : settled s + (s.workers.map (held cfg.searchString)).sum = due cfg s := hb
  have h1 := congrArg (fun x : Acct => Multiset.card x.1) hb'
  have h3 := congrArg (fun x : Acct => x.2.2.1) hb'
  have h4 := congrArg (fun x : Acct => x.2.2.2) hb'
  obtain ⟨hs1, hs2⟩ := held_sum cfg.searchString s.workers
  have hl := length_filter_add s.ocrCalls
  simp only [settled, due, handledJobs, Prod.fst_add, Prod.snd_add, Multiset.card_add,
    Multiset.coe_card, List.length_append, List.length_map] at h1 h3 h4
  simp only [abandoned, inFlight, Config.totalImages]
  omega

/-! ## The record of the calls is faithful -/

theorem faithful_snoc (cfg : Config) (calls : List OcrCall) (c : OcrCall)
    (hf : Faithful cfg calls)
    (hres : (resizeImageIfEnabled cfg.env c.imagePath cfg.fast).1 = Except.ok c.processedPath)
    (htext : c.result = cfg.env.clientText c.id (clientHistory c.id calls) c.processedPath) :
    Faithful cfg (calls ++ [c]) := by
  intro before c' after heq
  rcases List.eq_nil_or_concat after with ha | ⟨after', z, ha⟩
  · subst ha
    have := List.append_inj' heq rfl
    obtain ⟨h1, h2⟩ := this
    have hc : c = c' := by simpa using h2
    subst hc
    subst h1
    exact ⟨hres, htext⟩
  · subst ha
    rw [List.concat_eq_append, ← List.cons_append, ← List.append_assoc] at heq
    obtain ⟨h1, _⟩ := List.append_inj' heq rfl
    exact hf before c' after' h1

theorem traced_set (cfg : Config) (s s' : Sys) (ht : Traced cfg s) (id : Nat) (new : WorkerPc)
    (h1 : s'.workers = s.workers.set id new) (h2 : s'.ocrCalls = s.ocrCalls)
    (hnew : ∀ imagePath processedPath, new = WorkerPc.extracting imagePath processedPath →
      (resizeImageIfEnabled cfg.env imagePath cfg.fast).1 = Except.ok processedPath) :
    Traced cfg s' := by
  refine ⟨by rw [h2]; exact ht.1, ?_⟩
  intro imagePath processedPath hmem
  rw [h1] at hmem
  rcases List.mem_or_eq_of_mem_set hmem with hm | hm
  · exact ht.2 _ _ hm
  · exact hnew _ _ hm.symm

theorem traced_call (cfg : Config) (s s' : Sys) (ht : Traced cfg s) (id : Nat)
    (imagePath processedPath : GoString) (new : WorkerPc)
    (hget : s.workers.get? id = some (WorkerPc.extracting imagePath processedPath))
    (h1 : s'.workers = s.workers.set id new)
    (h2 : s'.ocrCalls = s.ocrCalls ++
      [{ id := id, imagePath := imagePath, processedPath := processedPath,
         result := cfg.env.clientText id (clientHistory id s.ocrCalls) processedPath }])
    (hnew : ∀ p pp, new ≠ WorkerPc.extracting p pp) : Traced cfg s' := by
  refine ⟨?_, ?_⟩
  · rw [h2]
    exact faithful_snoc cfg _ _ ht.1 (ht.2 _ _ (List.get?_mem hget)) rfl
  · intro p pp hmem
    rw [h1] at hmem
    rcases List.mem_or_eq_of_mem_set hmem with hm | hm
    · exact ht.2 _ _ hm
    · exact absurd hm.symm (hnew p pp)

theorem traced_workerStep (cfg : Config) (id : Nat) (s : Sys) (ht : Traced cfg s) :
    Traced cfg (workerStep cfg id s) := by
  unfold workerStep
  split
  · exact ht
  · split
    · exact traced_set cfg s _ ht id _ rfl rfl (by simp)
    · split
      · exact traced_set cfg s _ ht id _ rfl rfl (by simp)
      · exact ht
  · split
    · exact traced_set cfg s _ ht id _ rfl rfl (by simp)
    · rename_i processedPath hok
      refine traced_set cfg s _ ht id _ rfl rfl ?_
      intro p pp he
      simp only [WorkerPc.extracting.injEq] at he
      rw [← he.1, ← he.2]
      exact hok
  · rename_i imagePath processedPath hget
    split
    · rename_i err herr
      exact traced_call cfg s _ ht id imagePath processedPath _ hget rfl (by rw [herr])
        (by simp)
    · rename_i text hok
      exact traced_call cfg s _ ht id imagePath processedPath _ hget rfl (by rw [hok])
        (by simp)
  · split
    · exact traced_set cfg s _ ht id _ rfl rfl (by simp)
    · exact traced_set cfg s _ ht id _ rfl rfl (by simp)
  · exact traced_set cfg s _ ht id _ rfl rfl (by simp)
  · exact traced_set cfg s _ ht id _ rfl rfl (by simp)
  · exact ht

theorem traced_persist (cfg : Config) (s : Sys) (ht : Traced cfg s) :
    Traced cfg (persist cfg s) := by
  unfold persist
  dsimp only
  repeat' split
  all_goals exact ht

theorem traced_mainStep (cfg : Config) (s : Sys) (ht : Traced cfg s) :
    Traced cfg (mainStep cfg s) := by
  unfold mainStep
  split
  · split <;> exact ht
  · exact ht
  · split
    · exact traced_persist cfg s ht
    · exact ht
  · exact ht

theorem traced_reporterStep (cfg : Config) (s : Sys) (ht : Traced cfg s) :
    Traced cfg (reporterStep cfg s) := by
  unfold reporterStep
  repeat' split
  all_goals exact ht

theorem traced_reachable (cfg : Config) (s : Sys) (h : Reachable cfg s) : Traced cfg s := by
  refine reachable_induction cfg (Traced cfg) ?_ ?_ s h
  · refine ⟨?_, ?_⟩
    · intro before c after heq
      simp [initSys] at heq
    · intro p pp hmem
      simp only [initSys] at hmem
      exact absurd (List.eq_of_mem_replicate hmem) (by simp)
  · intro s a _ ih
    rcases step_cases cfg s a with he | ⟨_, hm | ⟨id, hw⟩ | hr⟩
    · rw [he]
      exact ih
    · rw [hm]
      exact traced_mainStep cfg s ih
    · rw [hw]
      exact traced_workerStep cfg id s ih
    · rw [hr]
      exact traced_reporterStep cfg s ih

/-! ## Once every worker has returned -/

theorem held_sum_of_all_stopped (searchString : GoString) (ws : List WorkerPc)
    (h : ws.all (fun w => decide (w = WorkerPc.stopped)) = true) :
    (ws.map (held searchString)).sum = 0 := by
  induction ws with
  | nil => rfl
  | cons w ws ih =>
    simp only [List.all_cons, Bool.and_eq_true, decide_eq_true_eq] at h
    obtain ⟨hw, hws⟩ := h
    subst hw
    simp [held, ih hws]

theorem pending_nil_of_all_stopped (cfg : Config) (s : Sys) (hP : 1 ≤ cfg.env.numCPU)
    (hw : WellFormed cfg s) (hs : allStopped s = true) : pendingJobs s = [] := by
  obtain ⟨h1, h2, h3, _, _⟩ := hw
  have hmem : WorkerPc.stopped ∈ s.workers := by
    cases hws : s.workers with
    | nil =>
      rw [hws] at h1
      simp only [List.length_nil] at h1
      omega
    | cons w ws =>
      have hall := hs
      simp only [allStopped, hws, List.all_cons, Bool.and_eq_true, decide_eq_true_eq] at hall
      rw [hall.1]
      exact List.mem_cons_self _ _
  obtain ⟨hc, hch⟩ := h3 hmem
  simp [pendingJobs, hch, h2 hc]

theorem results_nil_of_no_images (cfg : Config) (hz : cfg.imageFiles = []) (s : Sys)
    (h : Reachable cfg s) : s.shared.results = [] := by
  have hb : settled s + (s.workers.map (held cfg.searchString)).sum = due cfg s :=
    balanced_reachable cfg s h
  have h1 := congrArg (fun x : Acct => Multiset.card x.1) hb
  simp only [settled, due, handledJobs, hz, Prod.fst_add, Multiset.card_add, Multiset.coe_card,
    List.length_append, List.length_map, List.length_nil] at h1
  have hc : s.ocrCalls = [] := List.length_eq_zero.1 (by omega)
  have h2 := congrArg (fun x : Acct => Multiset.card x.2.1) hb
  simp only [settled, due, hc, List.flatMap_nil, Prod.fst_add, Prod.snd_add, Multiset.card_add,
    Multiset.coe_card, List.length_nil] at h2
  exact List.length_eq_zero.1 (by omega)

theorem persist_empty (cfg : Config) (s : Sys) (h : s.shared.results = []) :
    persist cfg s =
      { s with
        main := MainPc.exited 0
        shared := { s.shared with stdout := s.shared.stdout ++ [noMatchesLine] } } := by
  simp [persist, h]

/-- With no image the disk is never touched, and when the process has exited it
did so with status 0 and `No matches found.` as its last line. -/
theorem no_images_run (cfg : Config) (hz : cfg.imageFiles = []) (s : Sys)
    (h : Reachable cfg s) :
    s.files = cfg.disk ∧
    ∀ status, s.main = MainPc.exited status →
      status = 0 ∧ s.shared.stdout.getLast? = some noMatchesLine := by
  refine reachable_induction cfg
    (fun s => s.files = cfg.disk ∧ ∀ status, s.main = MainPc.exited status →
      status = 0 ∧ s.shared.stdout.getLast? = some noMatchesLine) ?_ ?_ s h
  · refine ⟨rfl, ?_⟩
    intro status hm
    simp [initSys] at hm
  · intro s a hr ih
    rcases step_cases cfg s a with he | ⟨hrun, hm' | ⟨id, hw⟩ | hrp⟩
    · rw [he]
      exact ih
    · rw [hm']
      rcases mainStep_cases cfg s with ⟨_, _, hp⟩ | ⟨hor, hf, _, _⟩
      · rw [hp, persist_empty cfg s (results_nil_of_no_images cfg hz s hr)]
        refine ⟨ih.1, ?_⟩
        intro status hm
        simp only [MainPc.exited.injEq] at hm
        exact ⟨hm.symm, by simp⟩
      · refine ⟨hf.trans ih.1, ?_⟩
        intro status hm
        rcases hor with he | hne
        · rw [he] at hm
          exact absurd hm (hrun status)
        · exact absurd hm (hne status)
    · rw [hw]
      refine ⟨(workerStep_frame cfg id s).2.trans ih.1, ?_⟩
      intro status hm
      rw [(workerStep_frame cfg id s).1] at hm
      exact absurd hm (hrun status)
    · rw [hrp]
      refine ⟨(reporterStep_frame cfg s).2.1.trans ih.1, ?_⟩
      intro status hm
      rw [(reporterStep_frame cfg s).1] at hm
      exact absurd hm (hrun status)

/-! ## One job in the hands of `worker` -/

theorem foldl_emit (imagePath : GoString) (xs : List GoString) (st : Shared) :
    xs.foldl (fun acc l => emit imagePath l acc) st =
      { st with
        results := st.results ++ xs.map (formatResult imagePath)
        stdout := st.stdout ++ xs.map (formatResult imagePath) } := by
  induction xs generalizing st with
  | nil => simp
  | cons x xs ih =>
    rw [List.foldl_cons, ih]
    simp [emit]

theorem filter_contains_eq (lines : List GoString) (term : GoString) :
    lines.filter (fun l => contains l term) = lines.filter (fun l => decide (term <:+: l)) := by
  apply List.filter_congr
  intro l _
  by_cases h : term <:+: l
  · simp [h, (contains_iff l term).2 h]
  · have : contains l term = false := by
      cases hc : contains l term with
      | false => rfl
      | true => exact absurd ((contains_iff l term).1 hc) h
    simp [h, this]

theorem processJob_ok (env : Env) (searchString : GoString) (fast : Bool) (id : Nat)
    (imagePath : GoString) (st : Shared) (client : Client) (processedPath text : GoString)
    (hres : (resizeImageIfEnabled env imagePath fast).1 = Except.ok processedPath)
    (hocr : env.clientText id client processedPath = Except.ok text) :
    processJob env searchString fast id imagePath st client =
      ({ st with
          results := st.results ++
            ((split '\n' text).filter (fun l => decide (searchString <:+: l))).map
              (formatResult imagePath)
          stdout := st.stdout ++
            ((split '\n' text).filter (fun l => decide (searchString <:+: l))).map
              (formatResult imagePath)
          counter := st.counter + 1 },
        client ++ [processedPath]) := by
  simp only [processJob, hres, hocr, forEachMatch_eq_foldl, foldl_emit, filter_contains_eq]

/-! ## Enumeration of the image files -/

theorem toNat_ofNat_small (n : Nat) (h : n < 55296) : (Char.ofNat n).toNat = n := by
  have hv : n.isValidChar := Or.inl h
  simp only [Char.ofNat, hv, dif_pos]
  rfl

theorem char_eq_iff (c d : Char) : c = d ↔ c.toNat = d.toNat := by
  constructor
  · intro h
    rw [h]
  · intro h
    rw [← Char.ofNat_toNat c, ← Char.ofNat_toNat d, h]

theorem toLowerRune_eq_letter (tbl : Char → Char) (c d : Char) (hd1 : 97 ≤ d.toNat)
    (hd2 : d.toNat ≤ 122) (ht : ∀ c : Char, 128 ≤ c.toNat → tbl c ≠ d) :
    toLowerRune tbl c = d ↔ c = d ∨ c = Char.ofNat (d.toNat - 32) := by
  unfold toLowerRune
  by_cases hc : c.toNat < 128
  · rw [if_pos hc]
    by_cases hu : 65 ≤ c.toNat ∧ c.toNat ≤ 90
    · rw [if_pos hu]
      rw [char_eq_iff, char_eq_iff c d, char_eq_iff c (Char.ofNat _),
        toNat_ofNat_small _ (by omega), toNat_ofNat_small _ (by omega)]
      omega
    · rw [if_neg hu]
      rw [char_eq_iff c (Char.ofNat _), toNat_ofNat_small _ (by omega), char_eq_iff]
      omega
  · rw [if_neg hc]
    have h1 := ht c (by omega)
    rw [char_eq_iff c (Char.ofNat _), toNat_ofNat_small _ (by omega), char_eq_iff c d]
    constructor
    · intro h
      exact absurd h h1
    · intro h
      omega

theorem toLowerRune_eq_dot (tbl : Char → Char) (c : Char)
    (ht : ∀ c : Char, 128 ≤ c.toNat → tbl c ≠ '.') : toLowerRune tbl c = '.' ↔ c = '.' := by
  have hdot : ('.' : Char).toNat = 46 := rfl
  unfold toLowerRune
  by_cases hc : c.toNat < 128
  · rw [if_pos hc]
    by_cases hu : 65 ≤ c.toNat ∧ c.toNat ≤ 90
    · rw [if_pos hu, char_eq_iff, char_eq_iff c, toNat_ofNat_small _ (by omega), hdot]
      omega
    · rw [if_neg hu]
  · rw [if_neg hc]
    have h1 := ht c (by omega)
    rw [char_eq_iff c, hdot]
    constructor
    · intro h
      exact absurd h h1
    · intro h
      omega

theorem toLower_eq_iff (tbl : Char → Char) (lit : GoString) (classes : List (List Char))
    (h : List.Forall₂ (fun d cls => ∀ c : Char, toLowerRune tbl c = d ↔ c ∈ cls) lit classes)
    (e : GoString) : toLower tbl e = lit ↔ inClasses e classes = true := by
  induction h generalizing e with
  | nil =>
    cases e with
    | nil => simp [toLower, inClasses]
    | cons c e => simp [toLower, inClasses]
  | cons hd _ ih =>
    cases e with
    | nil => simp [toLower, inClasses]
    | cons c e =>
      have := ih e
      simp only [toLower] at this
      simp only [toLower, List.map_cons, List.cons.injEq, inClasses, Bool.and_eq_true,
        decide_eq_true_eq, hd c, this]

theorem isImageFile_eq (env : Env) (ht : TableKeepsLetters env.unicodeLower)
    (filename : GoString) : isImageFile env filename = hasImageExtension filename := by
  have hne : ∀ d : Char, d ∈ ['.', 'p', 'n', 'g', 'j', 'e'] →
      ∀ c : Char, 128 ≤ c.toNat → env.unicodeLower c ≠ d := by
    intro d hd c hc heq
    exact ht c hc (heq ▸ hd)
  have hdot : ∀ c : Char, toLowerRune env.unicodeLower c = '.' ↔ c ∈ ['.'] := by
    intro c
    rw [toLowerRune_eq_dot _ c (hne '.' (by decide))]
    simp
  have hp : ∀ c : Char, toLowerRune env.unicodeLower c = 'p' ↔ c ∈ ['p', 'P'] := by
    intro c
    rw [toLowerRune_eq_letter _ c 'p' (by decide) (by decide) (hne 'p' (by decide))]
    simp
  have hn : ∀ c : Char, toLowerRune env.unicodeLower c = 'n' ↔ c ∈ ['n', 'N'] := by
    intro c
    rw [toLowerRune_eq_letter _ c 'n' (by decide) (by decide) (hne 'n' (by decide))]
    simp
  have hg : ∀ c : Char, toLowerRune env.unicodeLower c = 'g' ↔ c ∈ ['g', 'G'] := by
    intro c
    rw [toLowerRune_eq_letter _ c 'g' (by decide) (by decide) (hne 'g' (by decide))]
    simp
  have hj : ∀ c : Char, toLowerRune env.unicodeLower c = 'j' ↔ c ∈ ['j', 'J'] := by
    intro c
    rw [toLowerRune_eq_letter _ c 'j' (by decide) (by decide) (hne 'j' (by decide))]
    simp
  have he : ∀ c : Char, toLowerRune env.unicodeLower c = 'e' ↔ c ∈ ['e', 'E'] := by
    intro c
    rw [toLowerRune_eq_letter _ c 'e' (by decide) (by decide) (hne 'e' (by decide))]
    simp
  have h1 := toLower_eq_iff env.unicodeLower ".png".toList
    [['.'], ['p', 'P'], ['n', 'N'], ['g', 'G']]
    (.cons hdot (.cons hp (.cons hn (.cons hg .nil)))) (ext filename)
  have h2 := toLower_eq_iff env.unicodeLower ".jpg".toList
    [['.'], ['j', 'J'], ['p', 'P'], ['g', 'G']]
    (.cons hdot (.cons hj (.cons hp (.cons hg .nil)))) (ext filename)
  have h3 := toLower_eq_iff env.unicodeLower ".jpeg".toList
    [['.'], ['j', 'J'], ['p', 'P'], ['e', 'E'], ['g', 'G']]
    (.cons hdot (.cons hj (.cons hp (.cons he (.cons hg .nil))))) (ext filename)
  simp only [isImageFile, hasImageExtension]
  rw [Bool.eq_iff_iff]
  simp only [Bool.or_eq_true, decide_eq_true_eq, h1, h2, h3]

theorem foldl_imageFiles (env : Env) (folderPath : GoString) (files : List DirEntry)
    (acc : List GoString) :
    files.foldl
        (fun acc file =>
          if !file.isDir && isImageFile env file.name then
            acc ++ [env.pathJoin folderPath file.name]
          else acc)
        acc =
      acc ++ (files.filter (fun e => !e.isDir && isImageFile env e.name)).map
        (fun e => env.pathJoin folderPath e.name) := by
  induction files generalizing acc with
  | nil => simp
  | cons f files ih =>
    rw [List.foldl_cons, ih]
    by_cases h : (!f.isDir && isImageFile env f.name) = true
    · simp [List.filter_cons, h]
    · simp [List.filter_cons, h]

theorem demoEnv_table : TableKeepsLetters demoEnv.unicodeLower := by
  intro c hc
  have hk : ¬ (128 ≤ ('k' : Char).toNat) := by decide
  simp only [demoEnv]
  split
  · decide
  · split
    · decide
    · intro hmem
      simp only [List.mem_cons, List.mem_singleton, List.not_mem_nil, or_false] at hmem
      rcases hmem with h | h | h | h | h | h <;> (subst h; revert hc; decide)

/-- With a search term, no help flag and a readable directory, `main` starts the
pool on the enumeration of the listing. -/
theorem start_pool (env : Env) (searchString folderPath outputFile : GoString) (fast : Bool)
    (disk : List (GoString × GoString)) (files : List DirEntry) (hs : searchString ≠ [])
    (hread : env.readDir folderPath = Except.ok files) :
    ∃ cfg : Config,
      start env searchString folderPath outputFile fast false disk = Start.pool cfg ∧
      cfg.imageFiles = imageFiles env folderPath files ∧ cfg.searchString = searchString ∧
      cfg.fast = fast ∧ cfg.outputFile = outputFile := by
  have he : searchString.isEmpty = false := by
    cases searchString with
    | nil => exact absurd rfl hs
    | cons c cs => rfl
  refine ⟨{ env := env
            searchString := searchString
            folderPath := folderPath
            outputFile := outputFile
            fast := fast
            imageFiles := imageFiles env folderPath files
            disk := disk }, ?_, rfl, rfl, rfl, rfl⟩
  simp only [start, he, hread, Bool.or_self, Bool.false_eq_true, if_false]

/-! ## Persistence of the results -/

theorem foldl_join (sep : GoString) (rest : List GoString) (b : GoString) :
    rest.foldl (fun b s => b ++ sep ++ s) b = b ++ (rest.map (fun s => sep ++ s)).flatten := by
  induction rest generalizing b with
  | nil => simp
  | cons r rest ih =>
    rw [List.foldl_cons, ih]
    simp

theorem join_eq_intercalate (elems : List GoString) (sep : GoString) :
    join elems sep = sep.intercalate elems := by
  have hint : ∀ (e : GoString) (rest : List GoString),
      sep.intercalate (e :: rest) = e ++ (rest.map (fun s => sep ++ s)).flatten := by
    intro e rest
    induction rest generalizing e with
    | nil => simp [List.intercalate]
    | cons r rest ih =>
      have h2 := ih r
      simp only [List.intercalate, List.intersperse, List.flatten_cons, List.map_cons] at h2 ⊢
      rw [h2]
      simp
  cases elems with
  | nil => simp [join, List.intercalate]
  | cons e rest =>
    cases rest with
    | nil => simp [join, List.intercalate]
    | cons r rest =>
      rw [hint]
      simp only [join]
      rw [foldl_join]

theorem join_ends_with_last (rs : List GoString) (r sep : GoString) :
    r <:+ join (rs ++ [r]) sep := by
  cases rs with
  | nil => simp [join]
  | cons e rs =>
    have : join (e :: rs ++ [r]) sep =
        (e :: rs ++ [r]).tail.foldl (fun b s => b ++ sep ++ s) e := by
      cases rs <;> rfl
    rw [this]
    simp only [List.cons_append, List.tail_cons, List.foldl_append, List.foldl_cons,
      List.foldl_nil]
    exact List.suffix_append _ _

theorem readFile_writeFile_same (files : List (GoString × GoString)) (path content : GoString) :
    readFile (writeFile files path content) path = some content := by
  simp [readFile, writeFile]

theorem readFile_writeFile_other (files : List (GoString × GoString))
    (path content other : GoString) (h : other ≠ path) :
    readFile (writeFile files path content) other = readFile files other := by
  have hne : ¬ path = other := fun e => h e.symm
  simp only [readFile, writeFile, List.find?_cons, hne, decide_False]
  congr 1
  induction files with
  | nil => rfl
  | cons f files ih =>
    by_cases hf : f.1 = path
    · have hfo : ¬ f.1 = other := fun e => h (e.symm.trans hf)
      rw [List.filter_cons, List.find?_cons]
      simp only [hfo, decide_False]
      simp only [hf, decide_True, Bool.not_true, Bool.false_eq_true, if_false]
      exact ih
    · rw [List.filter_cons]
      simp only [hf, decide_False, Bool.not_false, if_true]
      rw [List.find?_cons, List.find?_cons, ih]

/-! ## A worker left alone runs `processJob` -/

theorem get?_set_self (ws : List WorkerPc) (id : Nat) (old new : WorkerPc)
    (h : ws.get? id = some old) : (ws.set id new).get? id = some new := by
  induction ws generalizing id with
  | nil => simp at h
  | cons w ws ih =>
    cases id with
    | zero => simp
    | succ id =>
      simp only [List.get?_cons_succ] at h
      simpa using ih id h

theorem step_worker (cfg : Config) (s : Sys) (id : Nat)
    (hrun : ∀ status, s.main ≠ MainPc.exited status) :
    step cfg s (Actor.worker id) = workerStep cfg id s := by
  unfold step
  split
  · rename_i status hm
    exact absurd hm (hrun status)
  · rfl

theorem worker_alone_scans (cfg : Config) (id : Nat) (imagePath : GoString)
    (lines : List GoString) (s : Sys) (hrun : ∀ status, s.main ≠ MainPc.exited status)
    (h : s.workers.get? id = some (WorkerPc.scanning imagePath lines)) :
    ∃ n : Nat, run cfg (List.replicate n (Actor.worker id)) s =
      { s with
        workers := s.workers.set id WorkerPc.recv
        shared :=
          { forEachMatch (emit imagePath) cfg.searchString lines s.shared with
            counter :=
              (forEachMatch (emit imagePath) cfg.searchString lines s.shared).counter + 1 } } := by
  induction lines generalizing s with
  | nil =>
    refine ⟨1, ?_⟩
    simp only [List.replicate, run_cons, step_worker cfg s id hrun]
    simp only [workerStep, h, run, List.foldl_nil, forEachMatch]
  | cons line rest ih =>
    by_cases hc : contains line cfg.searchString = true
    · have h1 : step cfg s (Actor.worker id) =
          { s with
            workers := s.workers.set id
              (WorkerPc.appending imagePath (formatResult imagePath line) rest)
            shared :=
              { s.shared with stdout := s.shared.stdout ++ [formatResult imagePath line] } } := by
        rw [step_worker cfg s id hrun]
        simp only [workerStep, h, hc, if_true]
      have hg1 := get?_set_self s.workers id _
        (WorkerPc.appending imagePath (formatResult imagePath line) rest) h
      have h2 : step cfg (step cfg s (Actor.worker id)) (Actor.worker id) =
          { s with
            workers := s.workers.set id (WorkerPc.scanning imagePath rest)
            shared := emit imagePath line s.shared } := by
        rw [h1, step_worker]
        · simp only [workerStep, hg1, List.set_set, emit]
        · exact fun status => hrun status
      obtain ⟨n, hn⟩ := ih
        { s with
          workers := s.workers.set id (WorkerPc.scanning imagePath rest)
          shared := emit imagePath line s.shared }
        (fun status => hrun status) (get?_set_self s.workers id _ _ h)
      refine ⟨n + 2, ?_⟩
      rw [List.replicate_succ, run_cons, List.replicate_succ, run_cons, h2, hn]
      simp only [List.set_set, forEachMatch, hc, if_true]
    · have h1 : step cfg s (Actor.worker id) =
          { s with workers := s.workers.set id (WorkerPc.scanning imagePath rest) } := by
        rw [step_worker cfg s id hrun]
        simp only [workerStep, h, hc, Bool.false_eq_true, if_false]
      obtain ⟨n, hn⟩ := ih
        { s with workers := s.workers.set id (WorkerPc.scanning imagePath rest) }
        (fun status => hrun status) (get?_set_self s.workers id _ _ h)
      refine ⟨n + 1, ?_⟩
      rw [List.replicate_succ, run_cons, h1, hn]
      simp only [List.set_set, forEachMatch, hc, Bool.false_eq_true, if_false]

theorem clientHistory_snoc (id : Nat) (calls : List OcrCall) (imagePath processedPath : GoString)
    (result : Except GoString GoString) :
    clientHistory id (calls ++
      [{ id := id, imagePath := imagePath, processedPath := processedPath, result := result }]) =
      clientHistory id calls ++ [processedPath] := by
  simp [clientHistory, List.filter_append]

/-- The pool and the sequential reading of `worker` agree: a worker that holds
a job and is scheduled alone comes back to the receive with the aggregates and
the client that `processJob` computes, the channel and `main` left alone. -/
theorem worker_alone_processJob (cfg : Config) (id : Nat) (imagePath : GoString) (s : Sys)
    (hrun : ∀ status, s.main ≠ MainPc.exited status)
    (h : s.workers.get? id = some (WorkerPc.resizing imagePath)) :
    ∃ n : Nat,
      (run cfg (List.replicate n (Actor.worker id)) s).shared =
        (processJob cfg.env cfg.searchString cfg.fast id imagePath s.shared
          (clientHistory id s.ocrCalls)).1 ∧
      clientHistory id (run cfg (List.replicate n (Actor.worker id)) s).ocrCalls =
        (processJob cfg.env cfg.searchString cfg.fast id imagePath s.shared
          (clientHistory id s.ocrCalls)).2 ∧
      (run cfg (List.replicate n (Actor.worker id)) s).workers =
        s.workers.set id WorkerPc.recv ∧
      (run cfg (List.replicate n (Actor.worker id)) s).chan = s.chan ∧
      (run cfg (List.replicate n (Actor.worker id)) s).main = s.main := by
  cases hres : (resizeImageIfEnabled cfg.env imagePath cfg.fast).1 with
  | error err =>
    refine ⟨1, ?_⟩
    simp only [List.replicate, run_cons, step_worker cfg s id hrun]
    simp only [workerStep, h, hres, run, List.foldl_nil, processJob]
    simp
  | ok processedPath =>
    have h1 : step cfg s (Actor.worker id) =
        { s with workers := s.workers.set id (WorkerPc.extracting imagePath processedPath) } := by
      rw [step_worker cfg s id hrun]
      simp only [workerStep, h, hres]
    have hg1 := get?_set_self s.workers id _ (WorkerPc.extracting imagePath processedPath) h
    cases hocr : cfg.env.clientText id (clientHistory id s.ocrCalls) processedPath with
    | error err =>
      refine ⟨2, ?_⟩
      rw [List.replicate_succ, run_cons, h1, List.replicate_succ, run_cons, step_worker]
      · simp only [workerStep, hg1, hocr, List.set_set, List.replicate, run, List.foldl_nil,
          processJob, hres, clientHistory_snoc]
        simp
      · exact fun status => hrun status
    | ok text =>
      have h2 : step cfg (step cfg s (Actor.worker id)) (Actor.worker id) =
          { s with
            workers := s.workers.set id (WorkerPc.scanning imagePath (split '\n' text))
            ocrCalls := s.ocrCalls ++
              [{ id := id, imagePath := imagePath, processedPath := processedPath,
                 result := Except.ok text }] } := by
        rw [h1, step_worker]
        · simp only [workerStep, hg1, hocr, List.set_set]
        · exact fun status => hrun status
      obtain ⟨n, hn⟩ := worker_alone_scans cfg id imagePath (split '\n' text)
        { s with
          workers := s.workers.set id (WorkerPc.scanning imagePath (split '\n' text))
          ocrCalls := s.ocrCalls ++
            [{ id := id, imagePath := imagePath, processedPath := processedPath,
               result := Except.ok text }] }
        (fun status => hrun status) (get?_set_self s.workers id _ _ h)
      refine ⟨n + 2, ?_⟩
      rw [List.replicate_succ, run_cons, List.replicate_succ, run_cons, h2, hn]
      simp only [List.set_set, processJob, hres, hocr, clientHistory_snoc]
      simp

/-- The order in which one worker gets its jobs matters: after `d/a.png` its
client still holds that image when `SetImage` fails on the dangling `d/gone.png`,
so both jobs are counted and matched; with `d/gone.png` first the client holds
no image, `Text` fails, and only `d/a.png` is counted. -/
theorem worker_order_matters :
    (worker demoEnv "hello".toList false 0 ["d/a.png".toList, "d/gone.png".toList]
        emptyShared []).1.counter = 2 ∧
    (worker demoEnv "hello".toList false 0 ["d/a.png".toList, "d/gone.png".toList]
        emptyShared []).1.results =
      ["Found in: a.png | Line: hello world".toList,
        "Found in: gone.png | Line: hello world".toList] ∧
    (worker demoEnv "hello".toList false 0 ["d/gone.png".toList, "d/a.png".toList]
        emptyShared []).1.counter = 1 ∧
    (worker demoEnv "hello".toList false 0 ["d/gone.png".toList, "d/a.png".toList]
        emptyShared []).1.results = ["Found in: a.png | Line: hello world".toList] := by
  decide

/-! ## Lemmas for the claims on the pool -/

theorem flatMap_okCalls (searchString : GoString) (calls : List OcrCall) :
    (calls.filter OcrCall.succeeded).flatMap (OcrCall.records searchString) =
      calls.flatMap (OcrCall.records searchString) := by
  induction calls with
  | nil => rfl
  | cons c calls ih =>
    cases hr : c.result with
    | error err =>
      have h1 : c.succeeded = false := by simp [OcrCall.succeeded, hr]
      have h2 : c.records searchString = [] := by simp [OcrCall.records, hr]
      simp [List.filter_cons, h1, h2, ih]
    | ok text =>
      have h1 : c.succeeded = true := by simp [OcrCall.succeeded, hr]
      simp [List.filter_cons, h1, ih]

theorem inFlight_of_all_stopped (s : Sys) (h : allStopped s = true) : inFlight s = 0 := by
  have : ∀ ws : List WorkerPc, ws.all (fun w => decide (w = WorkerPc.stopped)) = true →
      (ws.filter WorkerPc.busy).length = 0 := by
    intro ws
    induction ws with
    | nil => intro _; rfl
    | cons w ws ih =>
      intro hall
      simp only [List.all_cons, Bool.and_eq_true, decide_eq_true_eq] at hall
      obtain ⟨hw, hws⟩ := hall
      subst hw
      simpa [List.filter_cons, WorkerPc.busy] using ih hws
  exact this s.workers h

/-! ## The claims -/

/-- C1: the lines the worker's loop selects are exactly the lines, in their
original order and with duplicates kept, in which the search term occurs as a
contiguous, case-sensitive substring; on `["ABC","abc","xABCy"]` with term `"ABC"`
they are `["ABC","xABCy"]`. -/
theorem matchFilter_selects_substring_lines :
    (∀ (lines : List GoString) (term : GoString),
      matchFilter lines term = lines.filter (fun l => decide (term <:+: l))) ∧
    (∀ (σ : Type) (body : GoString → σ → σ) (lines : List GoString) (term : GoString) (st : σ),
      forEachMatch body term lines st =
        (lines.filter (fun l => decide (term <:+: l))).foldl (fun acc l => body l acc) st) ∧
    matchFilter ["ABC".toList, "abc".toList, "xABCy".toList] "ABC".toList =
      ["ABC".toList, "xABCy".toList] := by
  refine ⟨?_, ?_, by decide⟩
  · intro lines term
    rw [matchFilter, forEachMatch_eq_foldl, foldl_snoc_eq, filter_contains_eq]
    simp
  · intro σ body lines term st
    rw [forEachMatch_eq_foldl, filter_contains_eq]

/-- C2: when preprocessing and extraction succeed on a job, processing it keeps
the result slice as a prefix and appends one record per line of the text (split
on newline) that contains the search term, in line order, the record of line `l`
being `Found in: ` followed by the base name of the job's original path, ` | Line: `
and `l`; with no such line the slice is unchanged. The base name is taken from
the original path whatever path preprocessing returned, and this holds whatever
state the worker's client is in. -/
theorem processJob_appends_match_records (env : Env) (searchString : GoString) (fast : Bool)
    (id : Nat) (imagePath : GoString) (st : Shared) (client : Client)
    (processedPath text : GoString)
    (hres : (resizeImageIfEnabled env imagePath fast).1 = Except.ok processedPath)
    (hocr : env.clientText id client processedPath = Except.ok text) :
    (processJob env searchString fast id imagePath st client).1.results =
        st.results ++
          ((split '\n' text).filter (fun l => decide (searchString <:+: l))).map
            (fun l => "Found in: ".toList ++ base imagePath ++ " | Line: ".toList ++ l) ∧
    (processJob env searchString fast id imagePath st client).1.results.length =
        st.results.length +
          ((split '\n' text).filter (fun l => decide (searchString <:+: l))).length ∧
    ((split '\n' text).filter (fun l => decide (searchString <:+: l)) = [] →
      (processJob env searchString fast id imagePath st client).1.results = st.results) := by
  rw [processJob_ok env searchString fast id imagePath st client processedPath text hres hocr]
  refine ⟨rfl, by simp, ?_⟩
  intro h
  simp [h]

/-- Witness for C2: in fast mode the wide image `d/big.png` is read from the
temporary path `/tmp/big.png`, and the one matching line is recorded under the
base name of the original path. -/
theorem processJob_appends_match_records_witness :
    (resizeImageIfEnabled demoEnv "d/big.png".toList true).1 = Except.ok "/tmp/big.png".toList ∧
    demoEnv.clientText 0 [] "/tmp/big.png".toList = Except.ok "hello world\ngoodbye".toList ∧
    (processJob demoEnv "hello".toList true 0 "d/big.png".toList emptyShared []).1.results =
      ["Found in: big.png | Line: hello world".toList] :=
  ⟨by decide, by decide,
    (processJob_appends_match_records demoEnv "hello".toList true 0 "d/big.png".toList
      emptyShared [] "/tmp/big.png".toList "hello world\ngoodbye".toList
      (by decide) (by decide)).1.trans (by decide)⟩

/-- C3: when preprocessing and extraction succeed on a job, processing it adds
exactly one to the processed counter, whatever the number of matching lines and
whatever state the worker's client is in. -/
theorem processJob_counts_once (env : Env) (searchString : GoString) (fast : Bool)
    (id : Nat) (imagePath : GoString) (st : Shared) (client : Client)
    (processedPath text : GoString)
    (hres : (resizeImageIfEnabled env imagePath fast).1 = Except.ok processedPath)
    (hocr : env.clientText id client processedPath = Except.ok text) :
    (processJob env searchString fast id imagePath st client).1.counter = st.counter + 1 := by
  rw [processJob_ok env searchString fast id imagePath st client processedPath text hres hocr]

/-- Witness for C3: the job `d/a.png` with a search term that matches no line
still counts once. -/
theorem processJob_counts_once_witness :
    (resizeImageIfEnabled demoEnv "d/a.png".toList false).1 = Except.ok "d/a.png".toList ∧
    demoEnv.clientText 0 [] "d/a.png".toList = Except.ok "hello world\ngoodbye".toList ∧
    (processJob demoEnv "zzz".toList false 0 "d/a.png".toList emptyShared []).1.counter = 0 + 1 :=
  ⟨by decide, by decide,
    processJob_counts_once demoEnv "zzz".toList false 0 "d/a.png".toList emptyShared []
      "d/a.png".toList "hello world\ngoodbye".toList (by decide) (by decide)⟩

/-- C4: when preprocessing or extraction returns an error on a job, the job is
abandoned: only a log entry is added, the result slice, the counter and the
standard output stay as they were, and the loop of the worker goes on with the
jobs that follow, from those same aggregates. In the pool, the worker that holds
such a job comes back to the receive on the channel, not to its return, with the
slice, the counter and the channel as they were. -/
theorem processJob_abandons_on_error (env : Env) (searchString : GoString) (fast : Bool)
    (id : Nat) (imagePath : GoString) (st : Shared) (client : Client)
    (herr : (∃ err, (resizeImageIfEnabled env imagePath fast).1 = Except.error err) ∨
      (∃ processedPath err, (resizeImageIfEnabled env imagePath fast).1 = Except.ok processedPath ∧
        env.clientText id client processedPath = Except.error err)) :
    (processJob env searchString fast id imagePath st client).1.results = st.results ∧
    (processJob env searchString fast id imagePath st client).1.counter = st.counter ∧
    (processJob env searchString fast id imagePath st client).1.stdout = st.stdout ∧
    (∃ entry : LogEntry,
      (processJob env searchString fast id imagePath st client).1 =
        { st with log := st.log ++ [entry] } ∧
      ∀ rest : List GoString,
        worker env searchString fast id (imagePath :: rest) st client =
          worker env searchString fast id rest { st with log := st.log ++ [entry] }
            (processJob env searchString fast id imagePath st client).2) ∧
    (∀ (cfg : Config) (s : Sys), cfg.env = env → cfg.searchString = searchString →
      cfg.fast = fast → (∀ status, s.main ≠ MainPc.exited status) →
      s.workers.get? id = some (WorkerPc.resizing imagePath) →
      clientHistory id s.ocrCalls = client →
      ∃ n : Nat,
        (run cfg (List.replicate n (Actor.worker id)) s).workers.get? id = some WorkerPc.recv ∧
        (run cfg (List.replicate n (Actor.worker id)) s).shared.results = s.shared.results ∧
        (run cfg (List.replicate n (Actor.worker id)) s).shared.counter = s.shared.counter ∧
        (run cfg (List.replicate n (Actor.worker id)) s).chan = s.chan) := by
  have hseq : ∀ st : Shared, ∃ entry : LogEntry,
      (processJob env searchString fast id imagePath st client).1 =
        { st with log := st.log ++ [entry] } := by
    intro st
    rcases herr with ⟨err, h⟩ | ⟨processedPath, err, h, ho⟩
    · exact ⟨LogEntry.failedToProcess id imagePath err, by simp only [processJob, h]⟩
    · exact ⟨LogEntry.errorProcessing id processedPath err, by simp only [processJob, h, ho]⟩
  obtain ⟨entry, hp⟩ := hseq st
  refine ⟨by rw [hp], by rw [hp], by rw [hp], ⟨entry, hp, ?_⟩, ?_⟩
  · intro rest
    simp only [worker, List.foldl_cons]
    rw [← hp]
  · intro cfg s he hs hf hrun hget hcl
    subst he hs hf hcl
    obtain ⟨n, h1, _, h3, h4, _⟩ := worker_alone_processJob cfg id imagePath s hrun hget
    obtain ⟨entry', hp'⟩ := hseq s.shared
    refine ⟨n, ?_⟩
    rw [h1, h3, h4, hp']
    exact ⟨get?_set_self s.workers id _ _ hget, rfl, rfl, rfl⟩

/-- Witness for C4: `d/gone.png` cannot be opened, so in fast mode preprocessing
fails on it; without fast mode a fresh client has no image to read, so
extraction fails on it. Either way the job is abandoned. -/
theorem processJob_abandons_on_error_witness :
    (resizeImageIfEnabled demoEnv "d/gone.png".toList true).1 =
      Except.error "no such file".toList ∧
    (processJob demoEnv "hello".toList true 0 "d/gone.png".toList emptyShared []).1.results = [] ∧
    (processJob demoEnv "hello".toList true 0 "d/gone.png".toList emptyShared []).1.counter = 0 ∧
    demoEnv.clientText 0 [] "d/gone.png".toList = Except.error "PixImage is not set".toList ∧
    (processJob demoEnv "hello".toList false 0 "d/gone.png".toList emptyShared []).1.counter = 0 :=
  ⟨by decide,
    (processJob_abandons_on_error demoEnv "hello".toList true 0 "d/gone.png".toList emptyShared []
      (Or.inl ⟨"no such file".toList, by decide⟩)).1,
    (processJob_abandons_on_error demoEnv "hello".toList true 0 "d/gone.png".toList emptyShared []
      (Or.inl ⟨"no such file".toList, by decide⟩)).2.1,
    by decide,
    (processJob_abandons_on_error demoEnv "hello".toList false 0 "d/gone.png".toList emptyShared
      [] (Or.inr ⟨"d/gone.png".toList, "PixImage is not set".toList, by decide, by decide⟩)).2.1⟩

/-- C5: with the fast flag false, `resizeImageIfEnabled` returns its input path
and no error whatever the path, and makes no call at all: nothing is opened,
decoded or written. -/
theorem resize_identity_without_fast (env : Env) (imagePath : GoString) :
    resizeImageIfEnabled env imagePath false = (Except.ok imagePath, []) := by
  simp [resizeImageIfEnabled]

/-- C6: with the fast flag true and an image that opens and decodes, the image is
resized exactly when its width is strictly above 1200. Up to 1200 included the
input path comes back, no error, and nothing is written; above 1200, for a jpeg
or png whose encoding and writing succeed, the path returned is the temporary
directory joined with the base name of the input path. -/
theorem resize_threshold (env : Env) (imagePath : GoString) (file : List Nat) (img : Image)
    (format : GoString) (hopen : env.openFile imagePath = Except.ok file)
    (hdec : env.decode file = Except.ok (img, format)) :
    (img.width ≤ 1200 →
      resizeImageIfEnabled env imagePath true =
        (Except.ok imagePath, [FsCall.openFile imagePath, FsCall.decode imagePath])) ∧
    (img.width ≤ 1200 →
      ∀ p d, FsCall.writeFile p d ∉ (resizeImageIfEnabled env imagePath true).2) ∧
    (FsCall.resize 1200 0 ∈ (resizeImageIfEnabled env imagePath true).2 ↔ 1200 < img.width) ∧
    (∀ buf : List Nat, 1200 < img.width →
      (format = "jpeg".toList ∧ env.encodeJpeg (env.resizeLanczos3 1200 0 img) = Except.ok buf ∨
        format = "png".toList ∧ env.encodePng (env.resizeLanczos3 1200 0 img) = Except.ok buf) →
      env.writeFile (env.pathJoin env.tempDir (base imagePath)) (FileData.ofBuffer buf) = none →
      resizeImageIfEnabled env imagePath true =
        (Except.ok (env.pathJoin env.tempDir (base imagePath)),
          [FsCall.openFile imagePath, FsCall.decode imagePath, FsCall.resize 1200 0,
            FsCall.encode format,
            FsCall.writeFile (env.pathJoin env.tempDir (base imagePath))
              (FileData.ofBuffer buf)])) := by
  have hsmall : img.width ≤ 1200 →
      resizeImageIfEnabled env imagePath true =
        (Except.ok imagePath, [FsCall.openFile imagePath, FsCall.decode imagePath]) := by
    intro hw
    have : ¬ img.width > 1200 := by omega
    simp [resizeImageIfEnabled, hopen, hdec, this]
  refine ⟨hsmall, ?_, ?_, ?_⟩
  · intro hw p d
    rw [hsmall hw]
    simp
  · constructor
    · intro hmem
      by_contra hle
      rw [hsmall (by omega)] at hmem
      simp at hmem
    · intro hw
      have hgt : img.width > 1200 := hw
      simp only [resizeImageIfEnabled, hopen, hdec, hgt, if_true, Bool.not_true,
        Bool.false_eq_true, if_false]
      split
      · simp
      · simp
      · split <;> simp
  · intro buf hw henc hwrite
    have hgt : img.width > 1200 := hw
    rcases henc with ⟨hf, he⟩ | ⟨hf, he⟩
    · subst hf
      simp [resizeImageIfEnabled, hopen, hdec, hgt, he, hwrite]
    · subst hf
      have hne : ¬ ("png".toList = "jpeg".toList) := by decide
      simp [resizeImageIfEnabled, hopen, hdec, hgt, he, hwrite, hne]

/-- Witness for C6: `d/big.png` decodes to a png 2000 pixels wide and comes back
as `/tmp/big.png`; `d/a.png`, 1200 pixels wide, comes back unchanged. -/
theorem resize_threshold_witness :
    resizeImageIfEnabled demoEnv "d/big.png".toList true =
      (Except.ok "/tmp/big.png".toList,
        [FsCall.openFile "d/big.png".toList, FsCall.decode "d/big.png".toList,
          FsCall.resize 1200 0, FsCall.encode "png".toList,
          FsCall.writeFile "/tmp/big.png".toList (FileData.ofBuffer [7, 2])]) ∧
    resizeImageIfEnabled demoEnv "d/a.png".toList true =
      (Except.ok "d/a.png".toList,
        [FsCall.openFile "d/a.png".toList, FsCall.decode "d/a.png".toList]) :=
  ⟨((resize_threshold demoEnv "d/big.png".toList [2000]
      { width := 2000, height := 1000, pixels := 7 } "png".toList (by decide) (by decide)).2.2.2
      [7, 2] (by decide) (Or.inr ⟨rfl, by decide⟩) (by decide)).trans (by decide),
    (resize_threshold demoEnv "d/a.png".toList [1200]
      { width := 1200, height := 600, pixels := 7 } "jpeg".toList (by decide) (by decide)).1
      (by decide)⟩

/-- C7, as the code has it: the job list consists of exactly the entries of the
listing that are not directories and whose extension is `.png`, `.jpg` or `.jpeg`
in any mixture of cases, each joined to the directory path, in listing order,
once each; every other entry is left out. Entries that are neither directories
nor regular files (symbolic links, pipes, sockets, devices) are kept when their
name has such an extension. -/
theorem imageFiles_are_non_directories_with_image_extension (env : Env)
    (folderPath : GoString) (files : List DirEntry)
    (ht : TableKeepsLetters env.unicodeLower) :
    imageFiles env folderPath files =
      (files.filter (fun e => !e.isDir && hasImageExtension e.name)).map
        (fun e => env.pathJoin folderPath e.name) := by
  rw [imageFiles, foldl_imageFiles, List.nil_append]
  congr 1
  apply List.filter_congr
  intro e _
  rw [isImageFile_eq env ht]

/-- C7 as claimed fails: a symbolic link named `link.JPG` is not a regular file,
yet the enumeration makes it a job, so the job list is not the list of regular
files with an image extension. -/
theorem imageFiles_keeps_symlink :
    DirEntry.isRegular { name := "link.JPG".toList, typ := FileType.symlink } = false ∧
    imageFiles demoEnv "d".toList [{ name := "link.JPG".toList, typ := FileType.symlink }] =
      ["d/link.JPG".toList] ∧
    imageFiles demoEnv "d".toList [{ name := "link.JPG".toList, typ := FileType.symlink }] ≠
      ([({ name := "link.JPG".toList, typ := FileType.symlink } : DirEntry)].filter
        (fun e => e.isRegular && hasImageExtension e.name)).map
        (fun e => demoEnv.pathJoin "d".toList e.name) := by
  decide

/-- Witness for C7 on the listing of `demoEnv`: a png file, a directory named like
one, a symbolic link with an upper-case extension and a text file. -/
theorem imageFiles_are_non_directories_with_image_extension_witness :
    TableKeepsLetters demoEnv.unicodeLower ∧
    imageFiles demoEnv "d".toList
        [ { name := "a.png".toList, typ := FileType.regular },
          { name := "sub.png".toList, typ := FileType.dir },
          { name := "link.JPG".toList, typ := FileType.symlink },
          { name := "notes.txt".toList, typ := FileType.regular } ] =
      ["d/a.png".toList, "d/link.JPG".toList] :=
  ⟨demoEnv_table,
    (imageFiles_are_non_directories_with_image_extension demoEnv "d".toList
      [ { name := "a.png".toList, typ := FileType.regular },
        { name := "sub.png".toList, typ := FileType.dir },
        { name := "link.JPG".toList, typ := FileType.symlink },
        { name := "notes.txt".toList, typ := FileType.regular } ] demoEnv_table).trans
      (by decide)⟩

/-- C8: once every worker has returned, and not before, the step of `main` is
`persist`. With a non-empty result slice it writes to the output path the records
joined by one newline between consecutive records, nothing after the last one;
when the write succeeds the file holds exactly that, whatever it held before, no
other file changes, and `Results saved to:` is printed; when it fails the process
exits with status 1. With an empty slice no file is written and
`No matches found.` is printed. A run over zero images can always end, never
touches the disk, and when it has ended its last line is `No matches found.`. -/
theorem persist_writes_joined_results (cfg : Config) :
    (∀ s : Sys, s.main = MainPc.waiting → allStopped s = true →
      step cfg s Actor.main = persist cfg s) ∧
    (∀ s : Sys, s.shared.results ≠ [] →
      cfg.env.writeFile cfg.outputFile
          (FileData.ofString ("\n".toList.intercalate s.shared.results)) = none →
      (persist cfg s).main = MainPc.exited 0 ∧
      readFile (persist cfg s).files cfg.outputFile =
          some ("\n".toList.intercalate s.shared.results) ∧
      (∀ other, other ≠ cfg.outputFile →
          readFile (persist cfg s).files other = readFile s.files other) ∧
      (persist cfg s).shared.stdout =
          s.shared.stdout ++ ["Results saved to: ".toList ++ cfg.outputFile]) ∧
    (∀ (s : Sys) (err : GoString), s.shared.results ≠ [] →
      cfg.env.writeFile cfg.outputFile
          (FileData.ofString ("\n".toList.intercalate s.shared.results)) = some err →
      (persist cfg s).main = MainPc.exited 1 ∧ (persist cfg s).files = s.files) ∧
    (∀ (rs : List GoString) (r : GoString),
      join (rs ++ [r]) "\n".toList = "\n".toList.intercalate (rs ++ [r]) ∧
      r <:+ join (rs ++ [r]) "\n".toList) ∧
    (∀ s : Sys, s.shared.results = [] →
      (persist cfg s).main = MainPc.exited 0 ∧ (persist cfg s).files = s.files ∧
      (persist cfg s).shared.stdout = s.shared.stdout ++ ["No matches found.".toList]) ∧
    (∀ (sched : List Actor) (status : Nat),
      (run cfg sched (initSys cfg)).main = MainPc.exited status →
      allStopped (run cfg sched (initSys cfg)) = true) ∧
    (cfg.imageFiles = [] →
      (∃ (sched : List Actor) (status : Nat),
        (run cfg sched (initSys cfg)).main = MainPc.exited status) ∧
      ∀ sched : List Actor,
        (run cfg sched (initSys cfg)).files = cfg.disk ∧
        ∀ status, (run cfg sched (initSys cfg)).main = MainPc.exited status →
          status = 0 ∧
          (run cfg sched (initSys cfg)).shared.stdout.getLast? =
            some "No matches found.".toList) := by
  refine ⟨?_, ?_, ?_, ?_, ?_, ?_, ?_⟩
  · intro s hm hall
    simp only [allStopped] at hall
    simp [step, mainStep, hm, hall]
  · intro s hne hwrite
    have hlen : s.shared.results.length > 0 := List.length_pos.2 hne
    rw [← join_eq_intercalate] at hwrite ⊢
    have hp : persist cfg s =
        { s with
          main := MainPc.exited 0
          files := writeFile s.files cfg.outputFile (join s.shared.results "\n".toList)
          shared :=
            { s.shared with stdout := s.shared.stdout ++ [savedLine cfg.outputFile] } } := by
      simp only [persist, hlen, if_true, hwrite]
    rw [hp]
    refine ⟨rfl, readFile_writeFile_same _ _ _, ?_, rfl⟩
    intro other ho
    exact readFile_writeFile_other _ _ _ _ ho
  · intro s err hne hwrite
    have hlen : s.shared.results.length > 0 := List.length_pos.2 hne
    rw [← join_eq_intercalate] at hwrite
    have hp : persist cfg s =
        { s with
          main := MainPc.exited 1
          shared := { s.shared with log := s.shared.log ++ [LogEntry.failedToWrite err] } } := by
      simp only [persist, hlen, if_true, hwrite]
    rw [hp]
    exact ⟨rfl, rfl⟩
  · intro rs r
    exact ⟨join_eq_intercalate _ _, join_ends_with_last rs r _⟩
  · intro s he
    rw [persist_empty cfg s he]
    exact ⟨rfl, rfl, rfl⟩
  · intro sched status hm
    exact exited_all_stopped cfg _ ⟨sched, rfl⟩ status hm
  · intro hz
    refine ⟨can_finish cfg (initSys cfg) (wellFormed_init cfg), ?_⟩
    intro sched
    exact no_images_run cfg hz _ ⟨sched, rfl⟩

/-- Witness for C8: at the end of `demoSched` every worker has returned and the
slice holds one record; `persist` replaces the stale content of `results.txt` by
that record. -/
theorem persist_writes_joined_results_witness :
    (run demoCfg demoSched.dropLast (initSys demoCfg)).shared.results ≠ [] ∧
    demoCfg.env.writeFile demoCfg.outputFile
        (FileData.ofString ("\n".toList.intercalate
          (run demoCfg demoSched.dropLast (initSys demoCfg)).shared.results)) = none ∧
    readFile (run demoCfg demoSched.dropLast (initSys demoCfg)).files "results.txt".toList =
      some "stale".toList ∧
    readFile (persist demoCfg (run demoCfg demoSched.dropLast (initSys demoCfg))).files
        "results.txt".toList =
      some "Found in: a.png | Line: hello world".toList :=
  ⟨by decide, by decide, by decide,
    ((persist_writes_joined_results demoCfg).2.1
      (run demoCfg demoSched.dropLast (initSys demoCfg)) (by decide) (by decide)).2.1.trans
      (by decide)⟩

/-- C9: whatever the number of workers (at least one), the job list and the
interleaving of the goroutines' steps, the pool can be run until every worker
has returned; and once every worker has returned, every job of the list has been
handled exactly once, the processed counter is the number of jobs on which
neither preprocessing nor extraction errored in that run, which is the number of
jobs less the abandoned ones, and the result slice holds, as a multiset, exactly
the match records of those jobs: as many records as there are matches, none
lost, none twice. Which jobs errored and what text a job gave is read off the
record of the calls of the run; a client is stateful, so both may differ from
one assignment of the jobs to another. -/
theorem pool_aggregation_complete (cfg : Config) (hP : 1 ≤ cfg.env.numCPU) :
    (∃ sched : List Actor, allStopped (run cfg sched (initSys cfg)) = true) ∧
    ∀ sched : List Actor, allStopped (run cfg sched (initSys cfg)) = true →
      Faithful cfg (run cfg sched (initSys cfg)).ocrCalls ∧
      (handledJobs (run cfg sched (initSys cfg))).Perm cfg.imageFiles ∧
      (run cfg sched (initSys cfg)).shared.counter =
          (okCalls (run cfg sched (initSys cfg))).length ∧
      (run cfg sched (initSys cfg)).shared.counter + abandoned (run cfg sched (initSys cfg)) =
          cfg.totalImages ∧
      ((run cfg sched (initSys cfg)).shared.results : Multiset GoString) =
          (((okCalls (run cfg sched (initSys cfg))).flatMap
            (OcrCall.records cfg.searchString) : List GoString) : Multiset GoString) ∧
      (run cfg sched (initSys cfg)).shared.results.length =
          ((okCalls (run cfg sched (initSys cfg))).map
            (fun c => (c.records cfg.searchString).length)).sum := by
  refine ⟨pool_can_stop cfg, ?_⟩
  intro sched hs
  have hr : Reachable cfg (run cfg sched (initSys cfg)) := ⟨sched, rfl⟩
  generalize run cfg sched (initSys cfg) = s at hr hs
  have hw := wellFormed_reachable cfg s hr
  have hp := pending_nil_of_all_stopped cfg s hP hw hs
  have hb := balanced_reachable cfg s hr
  have hc := count_balance cfg s hb
  have hb' : settled s + (s.workers.map (held cfg.searchString)).sum = due cfg s := hb
  rw [held_sum_of_all_stopped cfg.searchString s.workers hs, add_zero] at hb'
  simp only [settled, due, hp, Multiset.coe_nil, add_zero, Prod.mk.injEq] at hb'
  obtain ⟨h1, h2, h3, _⟩ := hb'
  rw [inFlight_of_all_stopped s hs, hp] at hc
  have h2' : (s.shared.results : Multiset GoString) =
      (((okCalls s).flatMap (OcrCall.records cfg.searchString) : List GoString) :
        Multiset GoString) := by
    rw [okCalls, flatMap_okCalls]
    exact h2
  refine ⟨(traced_reachable cfg s hr).1, Multiset.coe_eq_coe.1 h1, h3, by simpa using hc, h2', ?_⟩
  have hperm := Multiset.coe_eq_coe.1 h2'
  rw [hperm.length_eq, List.length_flatMap]
  rfl

/-- Witness for C9: two workers and the jobs `d/a.png` and `d/gone.png`. When
each worker takes one job the second is abandoned: counter 1, one record. When
worker 0 takes both, its client still holds the first image on the second job:
counter 2, two records. The balance holds in both runs. -/
theorem pool_aggregation_complete_witness :
    1 ≤ demoCfg.env.numCPU ∧
    allStopped (run demoCfg demoSched (initSys demoCfg)) = true ∧
    (run demoCfg demoSched (initSys demoCfg)).shared.counter = 1 ∧
    (run demoCfg demoSched (initSys demoCfg)).shared.results =
      ["Found in: a.png | Line: hello world".toList] ∧
    abandoned (run demoCfg demoSched (initSys demoCfg)) = 1 ∧
    (run demoCfg demoSched (initSys demoCfg)).shared.counter =
      (okCalls (run demoCfg demoSched (initSys demoCfg))).length ∧
    allStopped (run demoCfg demoSchedOne (initSys demoCfg)) = true ∧
    (run demoCfg demoSchedOne (initSys demoCfg)).shared.counter = 2 ∧
    (run demoCfg demoSchedOne (initSys demoCfg)).shared.results =
      ["Found in: a.png | Line: hello world".toList,
        "Found in: gone.png | Line: hello world".toList] ∧
    (run demoCfg demoSchedOne (initSys demoCfg)).shared.counter +
      abandoned (run demoCfg demoSchedOne (initSys demoCfg)) = demoCfg.totalImages :=
  ⟨by decide, by decide, by decide, by decide, by decide,
    ((pool_aggregation_complete demoCfg (by decide)).2 demoSched (by decide)).2.2.1,
    by decide, by decide, by decide,
    ((pool_aggregation_complete demoCfg (by decide)).2 demoSchedOne (by decide)).2.2.2.1⟩

/-- C10: in every state of every run the processed counter is the number of jobs
that have completed without error (the jobs of the run that are neither pending,
nor in a worker's hands, nor abandoned; equally, the jobs whose text was
extracted and whose lines have all been visited), so it never exceeds the number
of images; and in a run in which a job is abandoned, the counter is strictly below
the number of images in every state of the run, before the job is abandoned as
well as after, and the progress reporter never finds its exit condition
`counter >= totalImages` true: it never returns. -/
theorem counter_bounded_and_reporter_hazard (cfg : Config) (sched : List Actor) :
    (run cfg sched (initSys cfg)).shared.counter = completedOk cfg (run cfg sched (initSys cfg)) ∧
    (run cfg sched (initSys cfg)).shared.counter + inLoop (run cfg sched (initSys cfg)) =
      (okCalls (run cfg sched (initSys cfg))).length ∧
    (run cfg sched (initSys cfg)).shared.counter ≤ cfg.totalImages ∧
    (1 ≤ abandoned (run cfg sched (initSys cfg)) →
      ∀ other : List Actor, other <+: sched ∨ sched <+: other →
        (run cfg other (initSys cfg)).shared.counter < cfg.totalImages ∧
        ¬ (run cfg other (initSys cfg)).shared.counter ≥ cfg.totalImages ∧
        (run cfg other (initSys cfg)).reporter ≠ ReporterPc.returned) := by
  have hbal : ∀ sched : List Actor,
      (run cfg sched (initSys cfg)).shared.counter + abandoned (run cfg sched (initSys cfg)) +
        inFlight (run cfg sched (initSys cfg)) +
        (pendingJobs (run cfg sched (initSys cfg))).length = cfg.totalImages :=
    fun sched => count_balance cfg _ (balanced_reachable cfg _ ⟨sched, rfl⟩)
  have hb := hbal sched
  refine ⟨?_, loop_balance cfg _ (balanced_reachable cfg _ ⟨sched, rfl⟩), ?_, ?_⟩
  · simp only [completedOk]
    omega
  · omega
  · intro hab other hrel
    have hlt : (run cfg other (initSys cfg)).shared.counter < cfg.totalImages := by
      rcases hrel with ⟨more, hm⟩ | ⟨more, hm⟩
      · have hmono := run_mono cfg more (run cfg other (initSys cfg))
        rw [← run_append, hm] at hmono
        omega
      · have hmono := run_mono cfg more (run cfg sched (initSys cfg))
        rw [← run_append, hm] at hmono
        have hb' := hbal other
        omega
    refine ⟨hlt, by omega, ?_⟩
    intro hret
    have := returned_counter cfg _ ⟨other, rfl⟩ hret
    omega

/-- Witness for C10: in `demoSched` the job `d/gone.png` is abandoned; after the
first five steps of that run, before it is, the counter is 0 of 2, at the end it
is 1 of 2, and the reporter, having ticked, is back in its sleep. -/
theorem counter_bounded_and_reporter_hazard_witness :
    1 ≤ abandoned (run demoCfg demoSched (initSys demoCfg)) ∧
    abandoned (run demoCfg (demoSched.take 5) (initSys demoCfg)) = 0 ∧
    demoCfg.totalImages = 2 ∧
    (run demoCfg demoSched (initSys demoCfg)).shared.counter = 1 ∧
    (run demoCfg demoSched (initSys demoCfg)).reporter = ReporterPc.sleeping ∧
    (run demoCfg (demoSched.take 5) (initSys demoCfg)).shared.counter < demoCfg.totalImages ∧
    (run demoCfg demoSched (initSys demoCfg)).reporter ≠ ReporterPc.returned :=
  ⟨by decide, by decide, by decide, by decide, by decide,
    ((counter_bounded_and_reporter_hazard demoCfg demoSched).2.2.2 (by decide)
      (demoSched.take 5) (Or.inl (List.take_prefix 5 demoSched))).1,
    ((counter_bounded_and_reporter_hazard demoCfg demoSched).2.2.2 (by decide)
      demoSched (Or.inl (List.prefix_refl demoSched))).2.2⟩

end GoTesseract
